import Mathlib

/-!
Verification development for the libomptarget host-to-accelerator mapping and
data-transfer engine (omptarget.cpp, device.h) and the device-side address
translation table (OmpTgtAddrTrans/obj/AT.c).

Addresses are modelled as natural numbers (uintptr_t values); the null pointer
is the value 0, as in the C source.  Pointer subtraction that may wrap is done
modulo 2^64 (wsub below); host ranges are assumed not to wrap the address
space, so range bounds use plain addition.
-/

namespace OmpTgt

/-- Word size of the target: uintptr_t arithmetic is modulo 2^64. -/
def W : Nat := 2 ^ 64

/-- Wrapping subtraction on uintptr_t values (two's complement, modulo 2^64). -/
def wsub (a b : Nat) : Nat := (a % W + (W - b % W)) % W

/-- Wrapping addition on uintptr_t values. -/
def wadd (a b : Nat) : Nat := (a + b) % W

/-- INF_REF_CNT from device.h: (LONG_MAX >> 1), the sentinel for entries that
must never be evicted. -/
def INF_REF_CNT : Nat := 2 ^ 62 - 1

/-- CONSIDERED_INF from device.h: x > (INF_REF_CNT >> 1). -/
def CONSIDERED_INF (x : Nat) : Bool := x > INF_REF_CNT / 2

/-- HostDataToTargetTy from device.h: one interval-map entry associating a host
range [HstPtrBegin, HstPtrEnd) with a device range starting at TgtPtrBegin. -/
structure HostDataToTargetTy where
  HstPtrBase : Nat
  HstPtrBegin : Nat
  HstPtrEnd : Nat
  TgtPtrBegin : Nat
  RefCount : Nat
  deriving Repr, DecidableEq

/-- The interval map HostDataToTargetListTy: a std::set ordered by H2DCmp,
that is by HstPtrBegin descending (device.h line 62-80).  Modelled as the
list of entries in iteration (descending) order. -/
abbrev HostDataToTargetListTy := List HostDataToTargetTy

/-- Lookup flags of LookupResult (device.h): containment and partial-overlap
classification of a queried host range against one entry. -/
structure LookupFlags where
  IsContained : Bool
  ExtendsBefore : Bool
  ExtendsAfter : Bool
  deriving Repr, DecidableEq

/-- Classification of the query range [hp, hp+size) against one entry, per the
spec (section 4.1): contained when the range lies within [HstPtrBegin,
HstPtrEnd); extends before/after when it partially overlaps the entry. -/
def lookupFlagsOf (hp size : Nat) (e : HostDataToTargetTy) : LookupFlags :=
  { IsContained := decide (e.HstPtrBegin ≤ hp ∧ hp < e.HstPtrEnd ∧
      hp + size ≤ e.HstPtrEnd),
    ExtendsBefore := decide (hp < e.HstPtrBegin ∧ hp + size > e.HstPtrBegin),
    ExtendsAfter := decide (e.HstPtrBegin ≤ hp ∧ hp < e.HstPtrEnd ∧
      hp + size > e.HstPtrEnd) }

/-- True when any of the three lookup flags is set for this entry. -/
def entryFlagged (hp size : Nat) (e : HostDataToTargetTy) : Bool :=
  (lookupFlagsOf hp size e).IsContained ||
  (lookupFlagsOf hp size e).ExtendsBefore ||
  (lookupFlagsOf hp size e).ExtendsAfter

/-- Modelled from the spec: DeviceTy::lookupMapping is implemented in
device.cpp, which is not part of the source tree (device.h only declares it).
Per the spec (section 4.1) the lookup scans the interval map and reports the
first entry for which the query range is contained or partially overlapping,
with the three classification flags. -/
def lookupMapping (m : HostDataToTargetListTy) (hp size : Nat) :
    Option (HostDataToTargetTy × LookupFlags) :=
  match m with
  | [] => none
  | e :: rest =>
    if entryFlagged hp size e then some (e, lookupFlagsOf hp size e)
    else lookupMapping rest hp size

/-- Insertion into the std::set with comparator H2DCmp (device.h line 62-80):
the set is ordered by HstPtrBegin descending, and an element whose key equals
an existing key is not inserted (std::set uniqueness). -/
def mapInsert (m : HostDataToTargetListTy) (e : HostDataToTargetTy) :
    HostDataToTargetListTy :=
  match m with
  | [] => [e]
  | x :: xs =>
    if e.HstPtrBegin > x.HstPtrBegin then e :: x :: xs
    else if x.HstPtrBegin > e.HstPtrBegin then x :: mapInsert xs e
    else x :: xs

/-- Removal of the entry with the given HstPtrBegin key from the set. -/
def mapErase (m : HostDataToTargetListTy) (key : Nat) :
    HostDataToTargetListTy :=
  m.filter (fun x => x.HstPtrBegin ≠ key)

/-- In-place refcount update of the entry with the given key (the set's
entries have mutable RefCount; the host range fields never change). -/
def mapSetRef (m : HostDataToTargetListTy) (key : Nat) (rc : Nat) :
    HostDataToTargetListTy :=
  m.map (fun x => if x.HstPtrBegin = key then { x with RefCount := rc } else x)

/-- Shadow pointer value record ShadowPtrValTy (device.h line 94-99). -/
structure ShadowPtrValTy where
  HstPtrVal : Nat
  TgtPtrAddr : Nat
  TgtPtrVal : Nat
  deriving Repr, DecidableEq

/-- ShadowPtrListTy (device.h line 100): std::map from host slot address to
shadow value, ordered by key descending (std::greater).  Modelled as the
association list in iteration (descending key) order. -/
abbrev ShadowPtrListTy := List (Nat × ShadowPtrValTy)

/-- Assignment into the shadow map (operator[] = value): replaces the value
when the key is present, otherwise inserts at the descending-sorted place. -/
def shadowAssign (s : ShadowPtrListTy) (key : Nat) (v : ShadowPtrValTy) :
    ShadowPtrListTy :=
  match s with
  | [] => [(key, v)]
  | (k, w) :: rest =>
    if key > k then (key, v) :: (k, w) :: rest
    else if k > key then (k, w) :: shadowAssign rest key v
    else (key, v) :: rest

/-- UpdatePtrTy (device.h line 111-116): one queued pointer patch of the bulk
path. -/
structure UpdatePtrTy where
  PtrBaseAddr : Nat
  PtrValue : Nat
  Delta : Nat
  HstPtrBase : Nat
  deriving Repr, DecidableEq

/-- SegmentTy (device.h line 123-131). -/
structure SegmentTy where
  HstPtrBegin : Nat
  HstPtrEnd : Nat
  TgtPtrBegin : Nat
  deriving Repr, DecidableEq

/-- Device state: the per-device fields of DeviceTy (device.h line 156-258)
that the mapping and transfer code reads and writes, together with the
device-allocation answers the RTL plugin will give (allocSupply holds the
result of each successive data_alloc call; 0 is the null pointer, meaning
the allocation failed). -/
structure DeviceTy where
  HostDataToTargetMap : HostDataToTargetListTy
  ShadowPtrMap : ShadowPtrListTy
  UpdatePtrList : List UpdatePtrTy
  BulkSubmitList : List (Nat × Nat)
  IsBulkEnabled : Bool
  IsNoBulkEnabled : Bool
  IsATEnabled : Bool
  IsDCEnabled : Bool
  ATMode : Nat
  allocSupply : List Nat

/-- Pop the next device-allocation answer from the supply (an exhausted
supply answers null). -/
def rtlAlloc (d : DeviceTy) : DeviceTy × Nat :=
  match d.allocSupply with
  | [] => (d, 0)
  | a :: rest => ({ d with allocSupply := rest }, a)

/-- Modelled from the spec: DeviceTy::getOrAllocTgtPtr is implemented in
device.cpp, which is not part of the source tree (device.h line 210 only
declares it).  Per the spec (section 4.2): if an entry exactly covering the
range exists, increment its refcount (unless UpdateRefCount is false; the
counter saturates at the infinite sentinel) and return its device pointer
with IsNew=false; a partial overlap is an error answered with null; otherwise
(for a nonzero size) request a device allocation, insert a new entry with
RefCount 1 (the infinite sentinel when IsImplicit marks a persistent global)
and return the new device pointer with IsNew=true; a failed allocation
answers null.  Returns the updated device, the device pointer (0 for null)
and the IsNew flag. -/
def getOrAllocTgtPtr (d : DeviceTy) (HstPtrBegin HstPtrBase Size : Nat)
    (IsImplicit UpdateRefCount : Bool) : DeviceTy × Nat × Bool :=
  match lookupMapping d.HostDataToTargetMap HstPtrBegin Size with
  | some (e, fl) =>
    if fl.IsContained then
      let rc := if UpdateRefCount && !CONSIDERED_INF e.RefCount then
          e.RefCount + 1 else e.RefCount
      let d := { d with HostDataToTargetMap :=
          (mapSetRef d.HostDataToTargetMap e.HstPtrBegin rc) }
      (d, e.TgtPtrBegin + (HstPtrBegin - e.HstPtrBegin), false)
    else
      (d, 0, false)
  | none =>
    if Size = 0 then (d, 0, false)
    else
      let (d, tp) := rtlAlloc d
      if tp = 0 then (d, 0, true)
      else
        let e : HostDataToTargetTy :=
          { HstPtrBase := HstPtrBase, HstPtrBegin := HstPtrBegin,
            HstPtrEnd := HstPtrBegin + Size, TgtPtrBegin := tp,
            RefCount := if IsImplicit then INF_REF_CNT else 1 }
        ({ d with HostDataToTargetMap := mapInsert d.HostDataToTargetMap e },
         tp, true)

/-- Modelled from the spec: DeviceTy::getTgtPtrBegin (refcount variant) is
implemented in device.cpp, which is not part of the source tree (device.h
line 213 only declares it).  Per the spec (section 4.2): looks up the entry;
when UpdateRefCount is set, decrements its refcount (the infinite sentinel is
never decremented) and reports IsLast exactly when the pre-decrement count is
one; does not allocate; answers null when no mapping exists or the range only
partially overlaps.  Returns the updated device, the device pointer and
IsLast. -/
def getTgtPtrBegin (d : DeviceTy) (HstPtrBegin Size : Nat)
    (UpdateRefCount : Bool) : DeviceTy × Nat × Bool :=
  match lookupMapping d.HostDataToTargetMap HstPtrBegin Size with
  | some (e, fl) =>
    if fl.IsContained then
      if UpdateRefCount && !CONSIDERED_INF e.RefCount then
        let d := { d with HostDataToTargetMap :=
            (mapSetRef d.HostDataToTargetMap e.HstPtrBegin (e.RefCount - 1)) }
        (d, e.TgtPtrBegin + (HstPtrBegin - e.HstPtrBegin),
         decide (e.RefCount = 1))
      else
        (d, e.TgtPtrBegin + (HstPtrBegin - e.HstPtrBegin), false)
    else (d, 0, false)
  | none => (d, 0, false)

/-- Modelled from the spec: the two-argument DeviceTy::getTgtPtrBegin
(device.h line 212, implementation in the absent device.cpp) is the pure
lookup used by InitLibrary: the device pointer when the range is contained in
a live entry, null otherwise, with no refcount change. -/
def getTgtPtrBeginPure (d : DeviceTy) (HstPtrBegin Size : Nat) : Nat :=
  match lookupMapping d.HostDataToTargetMap HstPtrBegin Size with
  | some (e, fl) =>
    if fl.IsContained then e.TgtPtrBegin + (HstPtrBegin - e.HstPtrBegin) else 0
  | none => 0

/-- Modelled from the spec: DeviceTy::getMapEntryRefCnt (device.h line 208,
implementation in the absent device.cpp) reports the reference count of the
entry whose host range contains the given address, used by the orchestrator
for the grouped-member (MEMBER_OF) copy decision. -/
def getMapEntryRefCnt (d : DeviceTy) (hp : Nat) : Option Nat :=
  match d.HostDataToTargetMap.find? (fun e =>
      decide (e.HstPtrBegin ≤ hp ∧ hp < e.HstPtrEnd)) with
  | some e => some e.RefCount
  | none => none

/-- Modelled from the spec: DeviceTy::deallocTgtPtr (device.h line 215,
implementation in the absent device.cpp).  Per the spec (section 4.2):
removes the entry and frees the device allocation; skipped (entry retained)
when the refcount is still positive and ForceDelete is false; entries holding
the infinite sentinel are never evicted.  Returns the updated device and
whether the entry was removed. -/
def deallocTgtPtr (d : DeviceTy) (HstPtrBegin Size : Nat)
    (ForceDelete : Bool) : DeviceTy × Bool :=
  match lookupMapping d.HostDataToTargetMap HstPtrBegin Size with
  | some (e, fl) =>
    if fl.IsContained then
      if CONSIDERED_INF e.RefCount then (d, false)
      else if e.RefCount = 0 || ForceDelete then
        ({ d with HostDataToTargetMap :=
            (mapErase d.HostDataToTargetMap e.HstPtrBegin) }, true)
      else (d, false)
    else (d, false)
  | none => (d, false)

/-- Map-type flags of one argument: a tagged rendering of the
OMP_TGT_MAPTYPE bitmask tested bit-by-bit in omptarget.cpp (omptarget.h is
not in the source tree; each field mirrors one bit test, and memberOf
renders member_of(type), which is the MEMBER_OF high bits minus one: none
stands for a negative result, some p for parent index p). -/
structure MapType where
  isTo : Bool
  isFrom : Bool
  isAlways : Bool
  isDelete : Bool
  isPtrObj : Bool
  isTargetParam : Bool
  isReturnParam : Bool
  isPrivate : Bool
  isLiteral : Bool
  isImplicit : Bool
  isNested : Bool
  hasNested : Bool
  memberOf : Option Nat
  deriving Repr, DecidableEq

/-- isLambdaMapping (omptarget.cpp line 862-867): PTR_AND_OBJ, LITERAL and
IMPLICIT all set. -/
def isLambdaMapping (t : MapType) : Bool :=
  t.isPtrObj && t.isLiteral && t.isImplicit

/-- One argument of an offload call: the parallel arrays args_base, args,
arg_sizes, arg_types collapsed into a record per index. -/
structure TgtArg where
  hbase : Nat
  hbegin : Nat
  hsize : Nat
  ty : MapType
  deriving Repr, DecidableEq

/-- Alignment constant for combined struct entries (omptarget.cpp line 65). -/
def alignment : Nat := 8

/-- Size of a pointer, sizeof(void*). -/
def sizeofPtr : Nat := 8

/-- Combined-entry padding computed at the top of the target_data_begin loop
(omptarget.cpp line 270-282): nonzero only when argument i is not MEMBER_OF
anything and the next argument is MEMBER_OF i. -/
def combinedPaddingB (args : List TgtArg) (i : Nat) : Nat :=
  match args.get? i, args.get? (i + 1) with
  | some a, some b =>
    if a.ty.memberOf = none ∧ b.ty.memberOf = some i then a.hbegin % alignment
    else 0
  | _, _ => 0

/-- Combined-entry padding recomputed in the target_data_end loop
(omptarget.cpp line 626-637), transcribed from that site. -/
def combinedPaddingE (args : List TgtArg) (i : Nat) : Nat :=
  match args.get? i, args.get? (i + 1) with
  | some a, some b =>
    if a.ty.memberOf = none ∧ b.ty.memberOf = some i then a.hbegin % alignment
    else 0
  | _, _ => 0

/-- Observable interactions of the engine with the RTL driver plugin and the
caller, tagged with the argument index that caused them. -/
inductive Event where
  | submitData (i : Nat) (tgt hst size : Nat)
  | submitPtr (i : Nat) (tgtAddr val : Nat)
  | retrieveData (i : Nat) (hst tgt size : Nat)
  | retParam (i : Nat) (val : Nat)
  | allocPrivate (i : Nat) (tgt size : Nat)
  | deletePrivate (tgt : Nat)
  | submitLambda (i : Nat) (tgt val : Nat)
  | bulkSubmit (i : Nat) (hst size : Nat)
  | suspendUpdate (i : Nat) (addr val delta base : Nat)
  | deallocEv (i : Nat) (hst size : Nat) (force : Bool)
  | launchEv (team : Bool)
  deriving Repr, DecidableEq

/-- Pointwise update of a host-memory slot map. -/
def memUpd (m : Nat → Nat) (k v : Nat) : Nat → Nat :=
  fun x => if x = k then v else m x

/-- Processing of one non-literal, non-private argument by the immediate path
of target_data_begin (omptarget.cpp line 266-399).  hmem gives the host word
stored at each slot address (read for the PTR_AND_OBJ base dereference).
Answers none when the control flow reaches code that is not in the source
tree (the nested-descriptor machinery of rttype.h, the IsDCEnabled mymalloc
branch, or a failed parent-refcount assertion); otherwise some of the updated
device, the emitted events, and whether processing may continue (false is an
immediate OFFLOAD_FAIL of the whole call). -/
def processArgBegin (hmem : Nat → Nat) (args : List TgtArg) (d : DeviceTy)
    (i : Nat) (a : TgtArg) : Option (DeviceTy × List Event × Bool) :=
  if a.ty.isNested then none
  else
    let padding := combinedPaddingB args i
    let hbegin := a.hbegin - padding
    let dsize := a.hsize + padding
    let IsImplicit := a.ty.isImplicit
    let UpdateRef := a.ty.memberOf = none
    let ptrStep : Option (DeviceTy × Nat × Nat × Bool × List Event) :=
      if a.ty.isPtrObj then
        let r := getOrAllocTgtPtr d a.hbase a.hbase sizeofPtr IsImplicit
          (decide UpdateRef)
        if r.2.1 = 0 then none
        else some (r.1, r.2.1, hmem a.hbase, true, [])
      else some (d, 0, a.hbase, decide UpdateRef, [])
    match ptrStep with
    | none => some (d, [], false)
    | some (d1, ptrTgt, hbase, updRef, _) =>
      let r := getOrAllocTgtPtr d1 hbegin hbase dsize IsImplicit updRef
      let d2 := r.1
      let tgt := r.2.1
      let IsNew := r.2.2
      let retEvs : List Event :=
        if a.ty.isReturnParam then
          [Event.retParam i (wsub tgt (wsub hbegin hbase))] else []
      let copyDecision : Option Bool :=
        if a.ty.isTo then
          if IsNew || a.ty.isAlways then some true
          else match a.ty.memberOf with
            | some p =>
              match args.get? p with
              | none => none
              | some pa =>
                match getMapEntryRefCnt d2 pa.hbegin with
                | none => none
                | some rc => some (decide (rc = 1))
            | none => some false
        else some false
      match copyDecision with
      | none => none
      | some doCopy =>
        if doCopy && d2.IsDCEnabled && decide (dsize = sizeofPtr) then none
        else
          let copyEvs : List Event :=
            if doCopy then [Event.submitData i tgt hbegin dsize] else []
          if a.ty.isPtrObj then
            let Delta := wsub hbegin hbase
            let TgtPtrBase := wsub tgt Delta
            let d3 := { d2 with ShadowPtrMap :=
              (shadowAssign d2.ShadowPtrMap a.hbase
                { HstPtrVal := hbase, TgtPtrAddr := ptrTgt,
                  TgtPtrVal := TgtPtrBase }) }
            some (d3, retEvs ++ copyEvs ++ [Event.submitPtr i ptrTgt TgtPtrBase],
              true)
          else
            some (d2, retEvs ++ copyEvs, true)

/-- Loop of the immediate target_data_begin over the remaining argument
indices (omptarget.cpp line 236-400): literals and privates are skipped; a
step reporting failure aborts the whole call with the events already
performed (no rollback). -/
def tdbGo (hmem : Nat → Nat) (args : List TgtArg) :
    DeviceTy → List Nat → Option (DeviceTy × List Event × Bool)
  | d, [] => some (d, [], true)
  | d, i :: rest =>
    match args.get? i with
    | none => tdbGo hmem args d rest
    | some a =>
      if a.ty.isLiteral || a.ty.isPrivate then tdbGo hmem args d rest
      else
        match processArgBegin hmem args d i a with
        | none => none
        | some (d1, evs, ok) =>
          if ok then
            match tdbGo hmem args d1 rest with
            | none => none
            | some (d2, evs2, ok2) => some (d2, evs ++ evs2, ok2)
          else some (d1, evs, false)

/-- Processing of one non-literal, non-private argument by
bulk_target_data_begin (omptarget.cpp line 451-574).  The bodies of
DeviceTy::bulk_data_submit and DeviceTy::suspend_update live in the absent
device.cpp; per the spec (section 4.4 step 2) they enqueue the copy into the
bulk submission list and the pointer patch into the pending-update queue,
which is how they are modelled here. -/
def processArgBulk (hmem : Nat → Nat) (args : List TgtArg) (d : DeviceTy)
    (i : Nat) (a : TgtArg) : Option (DeviceTy × List Event × Bool) :=
  if a.ty.isNested then none
  else
    let padding := combinedPaddingB args i
    let hbegin := a.hbegin - padding
    let dsize := a.hsize + padding
    let IsImplicit := a.ty.isImplicit
    let UpdateRef := a.ty.memberOf = none
    let ptrStep : Option (DeviceTy × Nat × Nat × Bool × Nat) :=
      if a.ty.isPtrObj then
        let r := getOrAllocTgtPtr d a.hbase a.hbase sizeofPtr IsImplicit
          (decide UpdateRef)
        if r.2.1 = 0 then none
        else some (r.1, r.2.1, hmem a.hbase, true, a.hbase)
      else some (d, 0, a.hbase, decide UpdateRef, 0)
    match ptrStep with
    | none => some (d, [], false)
    | some (d1, _ptrTgt, hbase, updRef, ptrHstBegin) =>
      let r := getOrAllocTgtPtr d1 hbegin hbase dsize IsImplicit updRef
      let d2 := r.1
      let tgt := r.2.1
      let IsNew := r.2.2
      if tgt = 0 && decide (dsize ≠ 0) then some (d2, [], false)
      else if a.ty.isReturnParam then none
      else
        let copyDecision : Option Bool :=
          if a.ty.isTo then
            if IsNew || a.ty.isAlways then some true
            else match a.ty.memberOf with
              | some p =>
                match args.get? p with
                | none => none
                | some pa =>
                  match getMapEntryRefCnt d2 pa.hbegin with
                  | none => none
                  | some rc => some (decide (rc = 1))
              | none => some false
          else some false
        match copyDecision with
        | none => none
        | some doCopy =>
          let d3 := if doCopy then
              { d2 with BulkSubmitList := d2.BulkSubmitList ++ [(hbegin, dsize)] }
            else d2
          let copyEvs : List Event :=
            if doCopy then [Event.bulkSubmit i hbegin dsize] else []
          if d3.IsATEnabled then some (d3, copyEvs, true)
          else if a.ty.isPtrObj then
            let Delta := wsub hbegin hbase
            let d4 := { d3 with UpdatePtrList := d3.UpdatePtrList ++
              [{ PtrBaseAddr := ptrHstBegin, PtrValue := hbegin,
                 Delta := Delta, HstPtrBase := hbase }] }
            some (d4, copyEvs ++ [Event.suspendUpdate i ptrHstBegin hbegin
              Delta hbase], true)
          else some (d3, copyEvs, true)

/-- Loop of bulk_target_data_begin over the remaining argument indices. -/
def bulkGo (hmem : Nat → Nat) (args : List TgtArg) :
    DeviceTy → List Nat → Option (DeviceTy × List Event × Bool)
  | d, [] => some (d, [], true)
  | d, i :: rest =>
    match args.get? i with
    | none => bulkGo hmem args d rest
    | some a =>
      if a.ty.isLiteral || a.ty.isPrivate then bulkGo hmem args d rest
      else
        match processArgBulk hmem args d i a with
        | none => none
        | some (d1, evs, ok) =>
          if ok then
            match bulkGo hmem args d1 rest with
            | none => none
            | some (d2, evs2, ok2) => some (d2, evs ++ evs2, ok2)
          else some (d1, evs, false)

/-- bulk_target_data_begin (omptarget.cpp line 408-578). -/
def bulk_target_data_begin (hmem : Nat → Nat) (d : DeviceTy)
    (args : List TgtArg) : Option (DeviceTy × List Event × Bool) :=
  bulkGo hmem args d (List.range args.length)

/-- target_data_begin (omptarget.cpp line 220-403): delegates to the bulk
path when IsBulkEnabled, otherwise runs the immediate loop.  The result
Boolean is true for OFFLOAD_SUCCESS and false for OFFLOAD_FAIL. -/
def target_data_begin (hmem : Nat → Nat) (d : DeviceTy)
    (args : List TgtArg) : Option (DeviceTy × List Event × Bool) :=
  if d.IsBulkEnabled then bulk_target_data_begin hmem d args
  else tdbGo hmem args d (List.range args.length)

/-- Shadow-restoration scan body of target_data_end (omptarget.cpp line
721-748): walks the (descending-ordered) shadow entries, stops at the first
key below lb, restores the host slot when the direction includes
copy-from-device, erases the entry when the owning mapping is deleted.
Returns the remaining shadow list, the updated host memory and the visited
keys in visit order. -/
def shadowScanGo (isFrom delEntry : Bool) (lb : Nat) :
    ShadowPtrListTy → (Nat → Nat) →
    ShadowPtrListTy × (Nat → Nat) × List Nat
  | [], hmem => ([], hmem, [])
  | (k, v) :: rest, hmem =>
    if k < lb then ((k, v) :: rest, hmem, [])
    else
      let hmem1 := if isFrom then memUpd hmem k v.HstPtrVal else hmem
      let r := shadowScanGo isFrom delEntry lb rest hmem1
      if delEntry then (r.1, r.2.1, k :: r.2.2)
      else ((k, v) :: r.1, r.2.1, k :: r.2.2)

/-- Shadow-restoration scan of target_data_end starting at
ShadowPtrMap.upper_bound(ub): with the std::greater ordering upper_bound
yields the first entry whose key is strictly below ub, so the scan covers
the suffix after the keys that are ≥ ub. -/
def shadowScan (s : ShadowPtrListTy) (hmem : Nat → Nat) (lb ub : Nat)
    (isFrom delEntry : Bool) : ShadowPtrListTy × (Nat → Nat) × List Nat :=
  let pre := s.takeWhile (fun kv => decide (kv.1 ≥ ub))
  let post := s.dropWhile (fun kv => decide (kv.1 ≥ ub))
  let r := shadowScanGo isFrom delEntry lb post hmem
  (pre ++ r.1, r.2.1, r.2.2)

/-- The device-to-host copy decision of one target_data_end argument
(omptarget.cpp line 662-679): copy when the entry is being deleted, or the
always flag is set, or the argument is a grouped non-pointer member whose
parent entry holds reference count one; none models a failed
parent-refcount assertion.  d1 is the device state after the
refcount-decrementing lookup. -/
def tdeCopyDecision (args : List TgtArg) (d1 : DeviceTy) (i : Nat)
    (a : TgtArg) (DelEntry : Bool) : Option Bool :=
  if a.ty.isFrom then
    if DelEntry || a.ty.isAlways then some true
    else if decide (a.ty.memberOf ≠ none) && !a.ty.isPtrObj then
      match a.ty.memberOf with
      | some p =>
        match args.get? p with
        | none => none
        | some pa =>
          match getMapEntryRefCnt d1 pa.hbegin with
          | none => none
          | some rc => some (decide (rc = 1))
      | none => some false
    else some false
  else some false

/-- Processing of one non-literal, non-private argument by target_data_end
(omptarget.cpp line 597-763).  dmem is the device-resident word at each
device slot address, used to model the bytes a data_retrieve writes into the
host range.  Answers none on code that is not in the source tree (nested
descriptors, the bulk lookup of the absent device.cpp, the IsDCEnabled
branch, a failed parent-refcount assertion). -/
def processArgEnd (dmem : Nat → Nat) (args : List TgtArg) (d : DeviceTy)
    (hmem : Nat → Nat) (i : Nat) (a : TgtArg) :
    Option (DeviceTy × (Nat → Nat) × List Event × Bool) :=
  if a.ty.isNested then none
  else if d.IsBulkEnabled then none
  else
    let padding := combinedPaddingE args i
    let hbegin := a.hbegin - padding
    let dsize := a.hsize + padding
    let UpdateRef := a.ty.memberOf = none ∨ a.ty.isPtrObj = true
    let ForceDelete := a.ty.isDelete
    let r := getTgtPtrBegin d hbegin dsize (decide UpdateRef)
    let d1 := r.1
    let tgt := r.2.1
    let IsLast := r.2.2
    let DelEntry0 := IsLast || ForceDelete
    let DelEntry := DelEntry0 &&
      !(decide (a.ty.memberOf ≠ none) && !a.ty.isPtrObj)
    if a.ty.isFrom || DelEntry then
      match tdeCopyDecision args d1 i a DelEntry with
      | none => none
      | some doCopy =>
        if doCopy && d1.IsDCEnabled && decide (dsize = sizeofPtr) then none
        else
          let hmem1 : Nat → Nat :=
            if doCopy then
              fun x => if hbegin ≤ x ∧ x < hbegin + dsize then
                dmem (tgt + (x - hbegin)) else hmem x
            else hmem
          let copyEvs : List Event :=
            if doCopy then [Event.retrieveData i hbegin tgt dsize] else []
          let lb := hbegin
          let ub := hbegin + dsize
          let scanned :=
            if d1.IsATEnabled then (d1.ShadowPtrMap, hmem1, [])
            else shadowScan d1.ShadowPtrMap hmem1 lb ub a.ty.isFrom DelEntry
          let d2 := { d1 with ShadowPtrMap := scanned.1 }
          let hmem2 := scanned.2.1
          if DelEntry then
            let rd := deallocTgtPtr d2 hbegin dsize ForceDelete
            some (rd.1, hmem2,
              copyEvs ++ [Event.deallocEv i hbegin dsize ForceDelete], true)
          else some (d2, hmem2, copyEvs, true)
    else some (d1, hmem, [], true)

/-- Loop of target_data_end over the remaining argument indices; the fourth
component records each processed argument index in execution order. -/
def tdeGo (dmem : Nat → Nat) (args : List TgtArg) :
    DeviceTy → (Nat → Nat) → List Nat →
    Option (DeviceTy × (Nat → Nat) × List Event × List Nat × Bool)
  | d, hmem, [] => some (d, hmem, [], [], true)
  | d, hmem, i :: rest =>
    match args.get? i with
    | none => tdeGo dmem args d hmem rest
    | some a =>
      if a.ty.isLiteral || a.ty.isPrivate then
        match tdeGo dmem args d hmem rest with
        | none => none
        | some (d2, h2, evs2, vis2, ok2) =>
          some (d2, h2, evs2, i :: vis2, ok2)
      else
        match processArgEnd dmem args d hmem i a with
        | none => none
        | some (d1, h1, evs, ok) =>
          if ok then
            match tdeGo dmem args d1 h1 rest with
            | none => none
            | some (d2, h2, evs2, vis2, ok2) =>
              some (d2, h2, evs ++ evs2, i :: vis2, ok2)
          else some (d1, h1, evs, [i], false)

/-- target_data_end (omptarget.cpp line 581-767): iterates the arguments in
reverse index order, from arg_num-1 down to 0. -/
def target_data_end (dmem : Nat → Nat) (d : DeviceTy) (hmem : Nat → Nat)
    (args : List TgtArg) :
    Option (DeviceTy × (Nat → Nat) × List Event × List Nat × Bool) :=
  tdeGo dmem args d hmem (List.range args.length).reverse

/-- Restoration scan of target_data_update after a retrieve (omptarget.cpp
line 805-820): like the data-end scan but never erases entries. -/
def updScanFrom (lb : Nat) :
    ShadowPtrListTy → (Nat → Nat) → (Nat → Nat)
  | [], hmem => hmem
  | (k, v) :: rest, hmem =>
    if k < lb then hmem
    else updScanFrom lb rest (memUpd hmem k v.HstPtrVal)

/-- Shadow resubmission scan of target_data_update after a submit
(omptarget.cpp line 835-855): re-sends each in-range shadow entry's device
value to the device slot. -/
def updScanTo (i : Nat) (lb : Nat) : ShadowPtrListTy → List Event
  | [] => []
  | (k, v) :: rest =>
    if k < lb then []
    else Event.submitPtr i v.TgtPtrAddr v.TgtPtrVal :: updScanTo i lb rest

/-- Processing of one non-literal, non-private argument by
target_data_update (omptarget.cpp line 781-857): a missing mapping is a
no-op; otherwise retrieve and/or submit with the shadow scans. -/
def processArgUpdate (dmem : Nat → Nat) (d : DeviceTy) (hmem : Nat → Nat)
    (i : Nat) (a : TgtArg) : DeviceTy × (Nat → Nat) × List Event × Bool :=
  let r := getTgtPtrBegin d a.hbegin a.hsize false
  let tgt := r.2.1
  if tgt = 0 then (d, hmem, [], true)
  else
    let lb := a.hbegin
    let ub := a.hbegin + a.hsize
    let fromPart : (Nat → Nat) × List Event :=
      if a.ty.isFrom then
        let hmem1 : Nat → Nat := fun x =>
          if a.hbegin ≤ x ∧ x < a.hbegin + a.hsize then
            dmem (tgt + (x - a.hbegin)) else hmem x
        let post := d.ShadowPtrMap.dropWhile (fun kv => decide (kv.1 ≥ ub))
        (updScanFrom lb post hmem1, [Event.retrieveData i a.hbegin tgt a.hsize])
      else (hmem, [])
    let toPart : List Event :=
      if a.ty.isTo then
        let post := d.ShadowPtrMap.dropWhile (fun kv => decide (kv.1 ≥ ub))
        Event.submitData i tgt a.hbegin a.hsize :: updScanTo i lb post
      else []
    (d, fromPart.1, fromPart.2 ++ toPart, true)

/-- Loop of target_data_update over the argument indices. -/
def tduGo (dmem : Nat → Nat) (args : List TgtArg) :
    DeviceTy → (Nat → Nat) → List Nat →
    DeviceTy × (Nat → Nat) × List Event × Bool
  | d, hmem, [] => (d, hmem, [], true)
  | d, hmem, i :: rest =>
    match args.get? i with
    | none => tduGo dmem args d hmem rest
    | some a =>
      if a.ty.isLiteral || a.ty.isPrivate then tduGo dmem args d hmem rest
      else
        let s := processArgUpdate dmem d hmem i a
        let r := tduGo dmem args s.1 s.2.1 rest
        (r.1, r.2.1, s.2.2.1 ++ r.2.2.1, r.2.2.2)

/-- target_data_update (omptarget.cpp line 770-860). -/
def target_data_update (dmem : Nat → Nat) (d : DeviceTy) (hmem : Nat → Nat)
    (args : List TgtArg) : DeviceTy × (Nat → Nat) × List Event × Bool :=
  tduGo dmem args d hmem (List.range args.length)

/-- Addition of an intptr_t offset to a uintptr_t value, modulo 2^64. -/
def iadd (a : Nat) (b : Int) : Nat := (((a : Int) + b).emod (2 ^ 64)).toNat

/-- Mutable state of the argument-vector construction loop of target()
(omptarget.cpp line 966-1119): the device, the argument and offset vectors,
the per-index positions into them, and the (first-)private arrays allocated
for this launch. -/
structure TargetLoopSt where
  dev : DeviceTy
  tgtArgs : List Nat
  tgtOffsets : List Int
  positions : List (Option Nat)
  fpArrays : List Nat

/-- Processing of one argument by the argument-vector loop of target()
(omptarget.cpp line 974-1119), with the bulk, AT-mode and mymalloc-space
branches gated off (the devices considered have IsBulkEnabled, IsATEnabled
false and ATMode zero, and no argument lies in the mymalloc space, so those
branches are never taken); none models an assertion failure or a read past
the modelled vectors. -/
def processArgTarget (args : List TgtArg) (st : TargetLoopSt) (i : Nat)
    (a : TgtArg) : Option (TargetLoopSt × List Event × Bool) :=
  if !a.ty.isTargetParam then
    if isLambdaMapping a.ty then
      match a.ty.memberOf with
      | none => none
      | some idx =>
        match st.positions.get? idx with
        | none => none
        | some none => none
        | some (some tgtIdx) =>
          match st.tgtArgs.get? tgtIdx, st.tgtOffsets.get? tgtIdx,
              args.get? idx with
          | some parentTgt, some parentOff, some pa =>
            let TgtPtrBase := iadd parentTgt parentOff
            let Delta := wsub a.hbase pa.hbegin
            let TgtPtrBegin := wadd TgtPtrBase Delta
            let r := getTgtPtrBegin st.dev a.hbegin a.hsize false
            let ptv := r.2.1
            if ptv = 0 then some ({ st with dev := r.1 }, [], true)
            else some ({ st with dev := r.1 },
              [Event.submitLambda i TgtPtrBegin ptv], true)
          | _, _, _ => none
    else some (st, [], true)
  else
    if a.ty.isLiteral then
      let st1 := { st with
        tgtArgs := st.tgtArgs ++ [a.hbase],
        tgtOffsets := st.tgtOffsets ++ [(0 : Int)],
        positions := st.positions.set i (some st.tgtArgs.length) }
      some (st1, [], true)
    else if a.ty.isPrivate then
      let ra := rtlAlloc st.dev
      let tp := ra.2
      if tp = 0 then some ({ st with dev := ra.1 }, [], false)
      else
        let copyEvs : List Event :=
          if a.ty.isTo then [Event.submitData i tp a.hbegin a.hsize] else []
        let st1 := { st with
          dev := ra.1,
          tgtArgs := st.tgtArgs ++ [tp],
          tgtOffsets := st.tgtOffsets ++ [(a.hbase : Int) - (a.hbegin : Int)],
          positions := st.positions.set i (some st.tgtArgs.length),
          fpArrays := st.fpArrays ++ [tp] }
        some (st1, Event.allocPrivate i tp a.hsize :: copyEvs, true)
    else if a.ty.isPtrObj then
      let r := getTgtPtrBegin st.dev a.hbase sizeofPtr false
      let st1 := { st with
        dev := r.1,
        tgtArgs := st.tgtArgs ++ [r.2.1],
        tgtOffsets := st.tgtOffsets ++ [(0 : Int)],
        positions := st.positions.set i (some st.tgtArgs.length) }
      some (st1, [], true)
    else
      let r := getTgtPtrBegin st.dev a.hbegin a.hsize false
      let st1 := { st with
        dev := r.1,
        tgtArgs := st.tgtArgs ++ [r.2.1],
        tgtOffsets := st.tgtOffsets ++ [(a.hbase : Int) - (a.hbegin : Int)],
        positions := st.positions.set i (some st.tgtArgs.length) }
      some (st1, [], true)

/-- Argument-vector loop of target() over the remaining indices. -/
def targetLoopGo (args : List TgtArg) :
    TargetLoopSt → List Nat → Option (TargetLoopSt × List Event × Bool)
  | st, [] => some (st, [], true)
  | st, i :: rest =>
    match args.get? i with
    | none => targetLoopGo args st rest
    | some a =>
      match processArgTarget args st i a with
      | none => none
      | some (st1, evs, ok) =>
        if ok then
          match targetLoopGo args st1 rest with
          | none => none
          | some (st2, evs2, ok2) => some (st2, evs ++ evs2, ok2)
        else some (st1, evs, false)

/-- Initial state of the argument-vector loop: empty vectors, positions all
unset (tgtArgsPositions initialized to -1, omptarget.cpp line 971). -/
def initTargetLoopSt (d : DeviceTy) (n : Nat) : TargetLoopSt :=
  { dev := d, tgtArgs := [], tgtOffsets := [],
    positions := List.replicate n none, fpArrays := [] }

/-- target() (omptarget.cpp line 875-1278) for a host function whose entry
was found in the translation tables, on a device with the bulk and AT modes
disabled: data begin, argument-vector construction, kernel launch (launchOk
is the driver's answer), the post-launch deallocation of the (first-)private
arrays, and data end.  A failed launch returns OFFLOAD_FAIL at line
1237-1240, before the deallocation loop.  Returns the final device, host
memory, the event log and the result (true for OFFLOAD_SUCCESS). -/
def targetRun (dmem hmem : Nat → Nat) (d : DeviceTy) (args : List TgtArg)
    (launchOk isTeam : Bool) :
    Option (DeviceTy × (Nat → Nat) × List Event × Bool) :=
  if d.IsBulkEnabled || d.IsATEnabled || decide (d.ATMode ≠ 0) then none
  else
    match target_data_begin hmem d args with
    | none => none
    | some (d1, evB, ok) =>
      if !ok then some (d1, hmem, evB, false)
      else
        match targetLoopGo args (initTargetLoopSt d1 args.length)
            (List.range args.length) with
        | none => none
        | some (st, evL, ok2) =>
          if !ok2 then some (st.dev, hmem, evB ++ evL, false)
          else
            let evLaunch := [Event.launchEv isTeam]
            if !launchOk then
              some (st.dev, hmem, evB ++ evL ++ evLaunch, false)
            else
              let evFree := st.fpArrays.map Event.deletePrivate
              match target_data_end dmem st.dev hmem args with
              | none => none
              | some (d2, h2, evE, _, ok3) =>
                some (d2, h2, evB ++ evL ++ evLaunch ++ evFree ++ evE, ok3)

/-- ATTableTy from OmpTgtAddrTrans/obj/AT.c line 3-8. -/
structure ATTableTy where
  HstPtrBegin : Nat
  HstPtrEnd : Nat
  TgtPtrBegin : Nat
  bias : Int
  deriving Repr, DecidableEq

/-- Loop of the binary-search AddrTrans (AT.c line 31-42), transcribed with
the source's midpoint expression (head + end) << 1, that is (head + end) * 2.
The table pointer is modelled as the function tab from indices to the
ATTableTy records stored in device memory (an index beyond the serialized
table reads whatever that memory holds).  The loop need not terminate, so a
fuel bounds the recursion; none means the fuel ran out before the loop
exited, some r that the function returned r. -/
def AddrTransLoop (tab : Nat → ATTableTy) (addr : Nat) :
    Nat → Nat → Nat → Option Nat
  | 0, _, _ => none
  | fuel + 1, head, e =>
    if head < e then
      let mid := (head + e) * 2
      if addr ≥ (tab mid).HstPtrBegin then
        if addr < (tab mid).HstPtrEnd then
          some (addr - (tab mid).HstPtrBegin + (tab mid).TgtPtrBegin)
        else AddrTransLoop tab addr fuel (mid + 1) e
      else AddrTransLoop tab addr fuel head mid
    else some 0

/-- AddrTrans (AT.c line 26-44): table slot 0 holds the segment count in its
HstPtrBegin field, the segments occupy slots 1..size; the search answers the
translated address for a containing segment and 0 (null) otherwise. -/
def AddrTrans (tab : Nat → ATTableTy) (addr fuel : Nat) : Option Nat :=
  let size := (tab 0).HstPtrBegin
  AddrTransLoop tab addr fuel 1 (size + 1)

/-- Linear-scan reference version of AddrTrans kept as documentation in the
source (AT.c line 12-23, commented out): scan slots 1..size for a containing
segment. -/
def AddrTransLinear (tab : Nat → ATTableTy) (addr : Nat) : Nat :=
  go ((tab 0).HstPtrBegin) 1
where
  go : Nat → Nat → Nat
  | 0, _ => 0
  | remaining + 1, i =>
    if (tab i).HstPtrBegin ≤ addr ∧ addr < (tab i).HstPtrEnd then
      addr - (tab i).HstPtrBegin + (tab i).TgtPtrBegin
    else go remaining (i + 1)

/-- One call of the mapping lifecycle manager, for invariant statements over
arbitrary call sequences. -/
inductive MapOp where
  | opAlloc (hp base size : Nat) (isImpl updRef : Bool)
  | opDealloc (hp size : Nat) (force : Bool)

/-- Application of one lifecycle call to the device. -/
def applyOp (d : DeviceTy) : MapOp → DeviceTy
  | MapOp.opAlloc hp base size isImpl updRef =>
    (getOrAllocTgtPtr d hp base size isImpl updRef).1
  | MapOp.opDealloc hp size force => (deallocTgtPtr d hp size force).1

/-- Run of a sequence of lifecycle calls. -/
def runOps (d : DeviceTy) (ops : List MapOp) : DeviceTy :=
  ops.foldl applyOp d

/-- Two entries overlap when some address lies in both host ranges;
arithmetically, when the larger begin is below the smaller end. -/
def Overlap (a b : HostDataToTargetTy) : Prop :=
  max a.HstPtrBegin b.HstPtrBegin < min a.HstPtrEnd b.HstPtrEnd

instance (a b : HostDataToTargetTy) : Decidable (Overlap a b) := by
  unfold Overlap; infer_instance

/-- Well-formedness of the interval map: iteration order strictly descending
by HstPtrBegin (the H2DCmp total order) and no two entries overlapping. -/
def MapWF (m : HostDataToTargetListTy) : Prop :=
  m.Pairwise (fun a b => a.HstPtrBegin > b.HstPtrBegin ∧ ¬ Overlap a b)

/-- Membership of a live entry whose host range starts at hp. -/
def mapContains (m : HostDataToTargetListTy) (hp : Nat) : Bool :=
  m.any (fun e => e.HstPtrBegin = hp)

/-- Fresh device with the given interval map and allocation supply (bulk and
AT modes disabled). -/
def mkDev (m : HostDataToTargetListTy) (supply : List Nat) : DeviceTy :=
  { HostDataToTargetMap := m, ShadowPtrMap := [], UpdatePtrList := [],
    BulkSubmitList := [], IsBulkEnabled := false, IsNoBulkEnabled := false,
    IsATEnabled := false, IsDCEnabled := false, ATMode := 0,
    allocSupply := supply }

/-- N successive getOrAllocTgtPtr calls for the same host range with
refcount update enabled. -/
def allocIter (hp base size : Nat) : DeviceTy → Nat → DeviceTy
  | d, 0 => d
  | d, n + 1 => (getOrAllocTgtPtr (allocIter hp base size d n) hp base size
      false true).1

/-- One region-end call on the range: getTgtPtrBegin with refcount decrement
followed, when it reports the last reference, by the deallocation that
target_data_end then performs.  Returns the device and the IsLast answer. -/
def endOnce (d : DeviceTy) (hp size : Nat) : DeviceTy × Bool :=
  let r := getTgtPtrBegin d hp size true
  if r.2.2 then ((deallocTgtPtr r.1 hp size false).1, true)
  else (r.1, false)

/-- K successive region-end calls on the range. -/
def endIter (hp size : Nat) : DeviceTy → Nat → DeviceTy
  | d, 0 => d
  | d, k + 1 => (endOnce (endIter hp size d k) hp size).1

/-- Sortedness of the shadow map: keys strictly descending, the iteration
order of std::map with std::greater. -/
def ShadowSorted (s : ShadowPtrListTy) : Prop :=
  s.Pairwise (fun a b => a.1 > b.1)

/-- The single mapping entry that the C1 scenario creates and mutates. -/
def C1E (hp base sz t n : Nat) : HostDataToTargetTy :=
  { HstPtrBase := base, HstPtrBegin := hp, HstPtrEnd := hp + sz,
    TgtPtrBegin := t, RefCount := n }

/-- The device state of the C1 scenario: N getOrAllocTgtPtr calls for the
fresh range [hp, hp+sz) against a device whose single driver allocation
answers t, followed by k region-end calls on the same range. -/
def c1State (hp base sz t N k : Nat) : DeviceTy :=
  endIter hp sz (allocIter hp base sz (mkDev [] [t]) N) k

/-- Decidability of well-formedness, for concrete witnesses. -/
instance (m : HostDataToTargetListTy) : Decidable (MapWF m) := by
  unfold MapWF
  infer_instance

/-- Device state at the main getOrAllocTgtPtr call of one target_data_begin
argument: for a PTR_AND_OBJ argument the pointer entry has been allocated
first (omptarget.cpp line 294-311). -/
def tdbPtrState (d : DeviceTy) (a : TgtArg) : DeviceTy :=
  if a.ty.isPtrObj then
    (getOrAllocTgtPtr d a.hbase a.hbase sizeofPtr a.ty.isImplicit
      (decide (a.ty.memberOf = none))).1
  else d

/-- HstPtrBase passed to the main getOrAllocTgtPtr call: for PTR_AND_OBJ the
base is re-read through the host pointer slot (omptarget.cpp line 309). -/
def tdbBaseVal (hmem : Nat → Nat) (a : TgtArg) : Nat :=
  if a.ty.isPtrObj then hmem a.hbase else a.hbase

/-- UpdateRef flag of the main getOrAllocTgtPtr call (omptarget.cpp line
293 and 310). -/
def tdbUpdRef (a : TgtArg) : Bool :=
  if a.ty.isPtrObj then true else decide (a.ty.memberOf = none)

/-- The main getOrAllocTgtPtr call of one target_data_begin argument
(omptarget.cpp line 313-314): the updated device, the device pointer and the
IsNew flag the copy decision then consults. -/
def tdbMainAlloc (hmem : Nat → Nat) (args : List TgtArg) (d : DeviceTy)
    (i : Nat) (a : TgtArg) : DeviceTy × Nat × Bool :=
  getOrAllocTgtPtr (tdbPtrState d a)
    (a.hbegin - combinedPaddingB args i) (tdbBaseVal hmem a)
    (a.hsize + combinedPaddingB args i) a.ty.isImplicit (tdbUpdRef a)

/-- Map-type value with every flag clear. -/
def mtDefault : MapType :=
  { isTo := false, isFrom := false, isAlways := false, isDelete := false,
    isPtrObj := false, isTargetParam := false, isReturnParam := false,
    isPrivate := false, isLiteral := false, isImplicit := false,
    isNested := false, hasNested := false, memberOf := none }

/-- Host memory whose every slot holds zero. -/
def zmem : Nat → Nat := fun _ => 0

/-- Concrete argument for exercising target_data_begin: a fresh 16-byte
range at 8192 mapped with the copy-to-device flag. -/
def c3Arg : TgtArg :=
  { hbase := 8192, hbegin := 8192, hsize := 16,
    ty := { mtDefault with isTo := true } }

/-- The refcount-decrementing getTgtPtrBegin call of one target_data_end
argument (omptarget.cpp line 639-646): padded range, UpdateRef per line
640-641. -/
def tdeLookup (args : List TgtArg) (d : DeviceTy) (i : Nat) (a : TgtArg) :
    DeviceTy × Nat × Bool :=
  getTgtPtrBegin d (a.hbegin - combinedPaddingE args i)
    (a.hsize + combinedPaddingE args i)
    (decide (a.ty.memberOf = none ∨ a.ty.isPtrObj = true))

/-- The entry-deletion decision of one target_data_end argument
(omptarget.cpp line 655-660): last reference or forced delete, except that a
grouped member that is not PTR_AND_OBJ never deletes (the parent struct
entry is protected). -/
def tdeDelEntry (args : List TgtArg) (d : DeviceTy) (i : Nat) (a : TgtArg) :
    Bool :=
  ((tdeLookup args d i a).2.2 || a.ty.isDelete) &&
    !(decide (a.ty.memberOf ≠ none) && !a.ty.isPtrObj)

/-- Concrete argument for exercising target_data_end: a mapped 16-byte
range at 8192 with the copy-from-device flag. -/
def c5Arg : TgtArg :=
  { hbase := 8192, hbegin := 8192, hsize := 16,
    ty := { mtDefault with isFrom := true } }

/-- Device for the target_data_end scenario: the range [8192, 8208) is
mapped to 1000 with one reference, and the shadow map records one pointer
slot at 8200 whose original host value is 77. -/
def c5Dev : DeviceTy :=
  ⟨[⟨8192, 8192, 8208, 1000, 1⟩], [(8200, ⟨77, 2000, 3000⟩)], [], [],
    false, false, false, false, 0, []⟩

/-- Device after the scenario's region end: mapping and shadow entry gone. -/
def c5DevAfter : DeviceTy :=
  ⟨[], [], [], [], false, false, false, false, 0, []⟩

/-- Host memory of the scenario after the device-to-host copy of
[8192, 8208) and before shadow restoration. -/
def c5Hmem1 : Nat → Nat :=
  fun x => if 8192 ≤ x ∧ x < 8192 + 16 then zmem (1000 + (x - 8192))
    else zmem x

/-- Concrete argument for exercising the target_data_end loop: a mapped
8-byte range at 4096 with the copy-from-device flag. -/
def c7Arg : TgtArg :=
  { hbase := 4096, hbegin := 4096, hsize := 8,
    ty := { mtDefault with isFrom := true } }

/-- Device for the target_data_end loop scenario: the range [4096, 4104) is
mapped to 500 with one reference. -/
def c7Dev : DeviceTy :=
  ⟨[⟨4096, 4096, 4104, 500, 1⟩], [], [], [],
    false, false, false, false, 0, []⟩

/-- Device after the loop scenario: the mapping is deallocated. -/
def c7DevAfter : DeviceTy :=
  ⟨[], [], [], [], false, false, false, false, 0, []⟩

/-- Host memory of the loop scenario after the device-to-host copy of
[4096, 4104). -/
def c7H2 : Nat → Nat :=
  fun x => if 4096 ≤ x ∧ x < 4096 + 8 then zmem (500 + (x - 4096))
    else zmem x

/-- Event classifier: true unless the event is a private-array allocation
or deallocation. -/
def noPrivEv : Event → Bool
  | Event.allocPrivate _ _ _ => false
  | Event.deletePrivate _ => false
  | _ => true

/-- Event classifier: true unless the event is a private-array
deallocation. -/
def noDelEv : Event → Bool
  | Event.deletePrivate _ => false
  | _ => true

/-- First-private argument for exercising target(): 8 bytes at host address
0, no copy-to flag. -/
def c9Arg : TgtArg :=
  { hbase := 0, hbegin := 0, hsize := 8,
    ty := { mtDefault with isTargetParam := true, isPrivate := true } }

/-- Lambda-captured argument for exercising target(): PTR_AND_OBJ, LITERAL
and IMPLICIT set, not TARGET_PARAM, grouped under argument 0. -/
def c10Arg : TgtArg :=
  { hbase := 9000, hbegin := 9000, hsize := 8,
    ty := { mtDefault with
      isPtrObj := true
      isLiteral := true
      isImplicit := true
      memberOf := some 0 } }

/-- Parent argument of the lambda scenario: a plain target parameter. -/
def c10Parent : TgtArg :=
  { hbase := 8000, hbegin := 8000, hsize := 64,
    ty := { mtDefault with isTargetParam := true } }

/-- Loop state of the lambda scenario: the parent occupies slot 0 of the
argument vector with device address 7777; the captured pointer 9000 has no
device mapping (the map is empty). -/
def c10St : TargetLoopSt :=
  ⟨mkDev [] [], [7777], [0], [some 0], []⟩

/-- One-entry translation table for exercising AddrTrans: slot 0 announces
one segment in its HstPtrBegin field, slot 1 holds the segment [4096, 4112)
mapped to device base 8192, and all other device memory reads as zero. -/
def atTabEx : Nat → ATTableTy :=
  fun i =>
    if i = 0 then ⟨1, 0, 0, 0⟩
    else if i = 1 then ⟨4096, 4112, 8192, 0⟩
    else ⟨0, 0, 0, 0⟩

/-- C4: refuted as stated.  The active binary-search AddrTrans computes its
midpoint as (head + end) << 1 — a left shift, doubling the sum instead of
halving it — so on the sorted one-segment table atTabEx it inspects slot 6,
far past the serialized table, and answers 0 (null) for the address 4096
even though 4096 lies inside the segment [4096, 4112); the linear-scan
reference version kept in the same file answers the translated address
4096 - 4096 + 8192 = 8192 that the claim requires. -/
theorem addrTrans_midpoint_bug :
    AddrTrans atTabEx 4096 100 = some 0 ∧
    ((atTabEx 1).HstPtrBegin ≤ 4096 ∧ 4096 < (atTabEx 1).HstPtrEnd) ∧
    AddrTransLinear atTabEx 4096 = 8192 ∧ (0 : Nat) ≠ 8192 := by
  refine ⟨rfl, by decide, rfl, by decide⟩

/-- Arithmetic shape of the CONSIDERED_INF threshold. -/
theorem considered_inf_eq_false {n : Nat} (h : n ≤ 2 ^ 60) :
    CONSIDERED_INF n = false := by
  have h62 : (2 : Nat) ^ 62 = 4611686018427387904 := by norm_num
  have h60 : (2 : Nat) ^ 60 = 1152921504606846976 := by norm_num
  simp only [CONSIDERED_INF, INF_REF_CNT, decide_eq_false_iff_not, not_lt]
  omega

/-- A positive-size range beginning at hp is flagged by its own entry. -/
theorem entryFlagged_C1E {hp base sz t : Nat} (n : Nat) (hsz : 0 < sz) :
    entryFlagged hp sz (C1E hp base sz t n) = true := by
  simp only [entryFlagged, lookupFlagsOf, C1E, Bool.or_eq_true,
    decide_eq_true_eq]
  omega

/-- A positive-size range beginning at hp is contained in its own entry. -/
theorem contained_C1E {hp base sz t : Nat} (n : Nat) (hsz : 0 < sz) :
    (lookupFlagsOf hp sz (C1E hp base sz t n)).IsContained = true := by
  simp only [lookupFlagsOf, C1E, decide_eq_true_eq]
  omega

/-- Lookup in the one-entry map finds the entry. -/
theorem lookupMapping_C1E {hp base sz t : Nat} (n : Nat) (hsz : 0 < sz) :
    lookupMapping [C1E hp base sz t n] hp sz =
      some (C1E hp base sz t n, lookupFlagsOf hp sz (C1E hp base sz t n)) := by
  simp only [lookupMapping]
  rw [if_pos (entryFlagged_C1E n hsz)]

/-- State after N allocations of the same fresh range: one entry with
refcount N and an exhausted supply. -/
theorem allocIter_state (hp base sz t : Nat) (hsz : 0 < sz) (ht : 0 < t) :
    ∀ N, 0 < N → N ≤ 2 ^ 60 →
    allocIter hp base sz (mkDev [] [t]) N = mkDev [C1E hp base sz t N] []
  | 0, hN, _ => absurd hN (by omega)
  | 1, _, _ => by
    show (getOrAllocTgtPtr (allocIter hp base sz (mkDev [] [t]) 0)
      hp base sz false true).1 = mkDev [C1E hp base sz t 1] []
    rw [show allocIter hp base sz (mkDev [] [t]) 0 = mkDev [] [t] from rfl]
    unfold getOrAllocTgtPtr
    rw [show lookupMapping (mkDev [] [t]).HostDataToTargetMap hp sz = none
      from rfl]
    simp only [rtlAlloc, mkDev]
    rw [if_neg (by omega : ¬ sz = 0), if_neg (by omega : ¬ t = 0)]
    simp [mapInsert, C1E]
  | N + 2, _, hNs => by
    have ih := allocIter_state hp base sz t hsz ht (N + 1) (by omega)
      (by omega)
    show (getOrAllocTgtPtr (allocIter hp base sz (mkDev [] [t]) (N + 1))
      hp base sz false true).1 = mkDev [C1E hp base sz t (N + 2)] []
    rw [ih]
    unfold getOrAllocTgtPtr
    rw [show (mkDev [C1E hp base sz t (N + 1)] []).HostDataToTargetMap =
      [C1E hp base sz t (N + 1)] from rfl]
    rw [lookupMapping_C1E (N + 1) hsz]
    simp only [contained_C1E (N + 1) hsz, if_true]
    have hinf : CONSIDERED_INF (C1E hp base sz t (N + 1)).RefCount = false :=
      considered_inf_eq_false (by simp only [C1E]; omega)
    simp only [hinf, Bool.not_false, Bool.and_true, if_true]
    simp [mapSetRef, mkDev, C1E]

/-- Projection of the interval map out of a fresh device. -/
theorem mkDev_map (m : HostDataToTargetListTy) (s : List Nat) :
    (mkDev m s).HostDataToTargetMap = m := rfl

/-- Replacing the interval map of a fresh device yields a fresh device. -/
theorem mkDev_update_map (m X : HostDataToTargetListTy) (s : List Nat) :
    ({ mkDev m s with HostDataToTargetMap := X } : DeviceTy) = mkDev X s :=
  rfl

/-- Decrementing the refcount of the single entry. -/
theorem mapSetRef_C1E (hp base sz t m rc : Nat) :
    mapSetRef [C1E hp base sz t m] hp rc = [C1E hp base sz t rc] := by
  simp [mapSetRef, C1E]

/-- Erasing the single entry. -/
theorem mapErase_C1E (hp base sz t m : Nat) :
    mapErase [C1E hp base sz t m] hp = [] := by
  simp [mapErase, C1E]

/-- Effect of one region-end call on the single-entry state: decrement while
more than one reference remains, removal at the last one. -/
theorem endOnce_state {hp base sz t : Nat} (hsz : 0 < sz) (m : Nat)
    (hm : 0 < m) (hms : m ≤ 2 ^ 60) :
    endOnce (mkDev [C1E hp base sz t m] []) hp sz =
      (if m = 1 then mkDev [] [] else mkDev [C1E hp base sz t (m - 1)] [],
       decide (m = 1)) := by
  have hinf : CONSIDERED_INF (C1E hp base sz t m).RefCount = false :=
    considered_inf_eq_false (by simp only [C1E]; omega)
  have hinf0 : CONSIDERED_INF (C1E hp base sz t (m - 1)).RefCount = false :=
    considered_inf_eq_false (by simp only [C1E]; omega)
  unfold endOnce getTgtPtrBegin
  rw [mkDev_map, lookupMapping_C1E m hsz]
  simp only [contained_C1E m hsz, if_true, hinf, Bool.not_false,
    Bool.and_true, if_true, mkDev_update_map]
  rw [show (C1E hp base sz t m).HstPtrBegin = hp from rfl]
  rw [show (C1E hp base sz t m).RefCount = m from rfl]
  rw [mapSetRef_C1E]
  by_cases h1 : m = 1
  · subst h1
    rw [show (decide ((1 : Nat) = 1)) = true from rfl]
    rw [if_pos rfl]
    simp only [Nat.sub_self] at hinf0 ⊢
    unfold deallocTgtPtr
    rw [mkDev_map, lookupMapping_C1E 0 hsz]
    simp only [contained_C1E 0 hsz, if_true]
    simp only [hinf0, Bool.false_eq_true, if_false]
    rw [show (C1E hp base sz t 0).RefCount = 0 from rfl]
    rw [show ((decide ((0 : Nat) = 0)) || false) = true from rfl]
    rw [if_pos rfl]
    rw [show (C1E hp base sz t 0).HstPtrBegin = hp from rfl]
    rw [mkDev_update_map, mapErase_C1E]
  · rw [if_neg h1]
    rw [show (decide (m = 1)) = false by simpa using h1]
    rw [if_neg (by simp : ¬ (false = true))]

/-- State after k region-end calls when more than k references were taken. -/
theorem endIter_state (hp base sz t N : Nat) (hsz : 0 < sz)
    (hNs : N ≤ 2 ^ 60) :
    ∀ k, k < N →
    endIter hp sz (mkDev [C1E hp base sz t N] []) k =
      mkDev [C1E hp base sz t (N - k)] []
  | 0, _ => by simp [endIter]
  | k + 1, hk => by
    have ih := endIter_state hp base sz t N hsz hNs k (by omega)
    show (endOnce (endIter hp sz (mkDev [C1E hp base sz t N] []) k) hp sz).1 =
      mkDev [C1E hp base sz t (N - (k + 1))] []
    rw [ih]
    rw [endOnce_state hsz (N - k) (by omega) (by omega)]
    have h1 : ¬ (N - k = 1) := by omega
    simp only [h1, if_false]
    have h2 : N - k - 1 = N - (k + 1) := by omega
    rw [h2]

/-- C1: confirmed.  After N getOrAllocTgtPtr calls for the same fresh exact
range (refcount update enabled) and k earlier region-end calls, the next
region-end call (getTgtPtrBegin with refcount decrement, followed by the
deallocation that target_data_end performs on the last reference) reports
IsLast exactly when it is the N-th one; the mapping entry is still present
before that call, and remains present afterwards exactly while fewer than N
ends have been issued. -/
theorem refcount_roundtrip (hp base sz t N k : Nat) (hsz : 0 < sz)
    (ht : 0 < t) (hN : 0 < N) (hNs : N ≤ 2 ^ 60) (hk : k < N) :
    (endOnce (c1State hp base sz t N k) hp sz).2 = decide (k + 1 = N) ∧
    mapContains (c1State hp base sz t N k).HostDataToTargetMap hp = true ∧
    mapContains ((endOnce (c1State hp base sz t N k) hp sz).1).HostDataToTargetMap
      hp = decide (k + 1 < N) := by
  have hstate : c1State hp base sz t N k = mkDev [C1E hp base sz t (N - k)] [] := by
    unfold c1State
    rw [allocIter_state hp base sz t hsz ht N hN hNs]
    exact endIter_state hp base sz t N hsz hNs k hk
  rw [hstate, endOnce_state hsz (N - k) (by omega) (by omega)]
  by_cases h1 : N - k = 1
  · have hk1 : k + 1 = N := by omega
    have hk2 : ¬ (k + 1 < N) := by omega
    simp [h1, hk1, hk2, mapContains, mkDev, C1E]
  · have hk1 : ¬ (k + 1 = N) := by omega
    have hk2 : k + 1 < N := by omega
    simp [h1, hk1, hk2, mapContains, mkDev, C1E]

/-- Witness for refcount_roundtrip: two allocations of [4096, 4112), one end
already done; the second end is the last one and removes the entry. -/
theorem refcount_roundtrip_witness :
    (endOnce (c1State 4096 4096 16 1000 2 1) 4096 16).2 = decide (1 + 1 = 2) ∧
    mapContains (c1State 4096 4096 16 1000 2 1).HostDataToTargetMap 4096 = true ∧
    mapContains ((endOnce (c1State 4096 4096 16 1000 2 1) 4096 16).1).HostDataToTargetMap
      4096 = decide (1 + 1 < 2) :=
  refcount_roundtrip 4096 4096 16 1000 2 1 (by decide) (by decide) (by decide)
    (by norm_num) (by decide)

/-- Overlapping is symmetric. -/
theorem overlap_comm (a b : HostDataToTargetTy) : Overlap a b ↔ Overlap b a := by
  unfold Overlap
  omega

/-- An entry none of whose lookup flags fire is disjoint from the queried
range. -/
theorem not_flagged_disjoint {hp sz : Nat} {x e : HostDataToTargetTy}
    (h : entryFlagged hp sz x = false) (he1 : e.HstPtrBegin = hp)
    (he2 : e.HstPtrEnd = hp + sz) : ¬ Overlap e x := by
  simp only [entryFlagged, lookupFlagsOf, Bool.or_eq_false_iff,
    decide_eq_false_iff_not] at h
  unfold Overlap
  rw [he1, he2]
  omega

/-- A lookup miss means no entry's flags fire. -/
theorem lookup_none_unflagged {hp sz : Nat} :
    ∀ {m : HostDataToTargetListTy}, lookupMapping m hp sz = none →
    ∀ x ∈ m, entryFlagged hp sz x = false := by
  intro m
  induction m with
  | nil => intro _ x hx; cases hx
  | cons a rest ih =>
    intro h x hx
    simp only [lookupMapping] at h
    by_cases hf : entryFlagged hp sz a = true
    · rw [if_pos hf] at h; cases h
    · rw [if_neg hf] at h
      cases hx with
      | head => simpa using hf
      | tail _ hx2 => exact ih h x hx2

/-- Members of the set after an insertion. -/
theorem mem_mapInsert {e : HostDataToTargetTy} :
    ∀ {m : HostDataToTargetListTy} {y}, y ∈ mapInsert m e → y = e ∨ y ∈ m := by
  intro m
  induction m with
  | nil =>
    intro y hy
    simp only [mapInsert] at hy
    cases hy with
    | head => exact Or.inl rfl
    | tail _ h2 => cases h2
  | cons x xs ih =>
    intro y hy
    simp only [mapInsert] at hy
    by_cases h1 : e.HstPtrBegin > x.HstPtrBegin
    · rw [if_pos h1] at hy
      cases hy with
      | head => exact Or.inl rfl
      | tail _ h2 => exact Or.inr h2
    · rw [if_neg h1] at hy
      by_cases h2 : x.HstPtrBegin > e.HstPtrBegin
      · rw [if_pos h2] at hy
        cases hy with
        | head => exact Or.inr (List.mem_cons_self _ _)
        | tail _ h3 =>
          cases ih h3 with
          | inl h4 => exact Or.inl h4
          | inr h4 => exact Or.inr (List.mem_cons_of_mem _ h4)
      · rw [if_neg h2] at hy
        exact Or.inr hy

/-- Insertion of an entry disjoint from every member of a well-formed set
preserves well-formedness. -/
theorem mapInsert_WF :
    ∀ {m : HostDataToTargetListTy}, MapWF m →
    ∀ {e : HostDataToTargetTy}, (∀ x ∈ m, ¬ Overlap e x) →
    MapWF (mapInsert m e) := by
  intro m
  induction m with
  | nil =>
    intro _ e _
    simp [mapInsert, MapWF]
  | cons x xs ih =>
    intro hWF e hdisj
    obtain ⟨hx, hxs⟩ := List.pairwise_cons.mp hWF
    simp only [mapInsert]
    by_cases h1 : e.HstPtrBegin > x.HstPtrBegin
    · rw [if_pos h1]
      refine List.Pairwise.cons ?_ hWF
      intro y hy
      cases hy with
      | head =>
        exact ⟨h1, hdisj x (List.mem_cons_self _ _)⟩
      | tail _ h2 =>
        exact ⟨Nat.lt_trans (hx y h2).1 h1,
          hdisj y (List.mem_cons_of_mem _ h2)⟩
    · rw [if_neg h1]
      by_cases h2 : x.HstPtrBegin > e.HstPtrBegin
      · rw [if_pos h2]
        refine List.Pairwise.cons ?_ ?_
        · intro y hy
          cases mem_mapInsert hy with
          | inl h3 =>
            subst h3
            exact ⟨h2, fun hov => hdisj x (List.mem_cons_self _ _)
              ((overlap_comm _ _).mpr hov)⟩
          | inr h3 => exact hx y h3
        · exact ih hxs (fun y hy => hdisj y (List.mem_cons_of_mem _ hy))
      · rw [if_neg h2]
        exact hWF

/-- The refcount update leaves the range begin unchanged. -/
theorem setRef_begin (a : HostDataToTargetTy) (key rc : Nat) :
    ((if a.HstPtrBegin = key then { a with RefCount := rc } else a) :
      HostDataToTargetTy).HstPtrBegin = a.HstPtrBegin := by
  by_cases h : a.HstPtrBegin = key <;> simp [h]

/-- The refcount update leaves the range end unchanged. -/
theorem setRef_end (a : HostDataToTargetTy) (key rc : Nat) :
    ((if a.HstPtrBegin = key then { a with RefCount := rc } else a) :
      HostDataToTargetTy).HstPtrEnd = a.HstPtrEnd := by
  by_cases h : a.HstPtrBegin = key <;> simp [h]

/-- A refcount update changes no host range, so well-formedness survives. -/
theorem mapSetRef_WF {m : HostDataToTargetListTy} {key rc : Nat}
    (h : MapWF m) : MapWF (mapSetRef m key rc) := by
  unfold mapSetRef MapWF
  refine List.Pairwise.map _ ?_ h
  intro a b hab
  refine ⟨?_, ?_⟩
  · rw [setRef_begin, setRef_begin]
    exact hab.1
  · intro hov
    apply hab.2
    unfold Overlap at hov ⊢
    rwa [setRef_begin, setRef_begin, setRef_end, setRef_end] at hov

/-- Erasure keeps a sublist, so well-formedness survives. -/
theorem mapErase_WF {m : HostDataToTargetListTy} {key : Nat}
    (h : MapWF m) : MapWF (mapErase m key) :=
  List.Pairwise.sublist (List.filter_sublist _) h

/-- The interval map of the device rtlAlloc returns. -/
theorem rtlAlloc_map (d : DeviceTy) :
    ((rtlAlloc d).1).HostDataToTargetMap = d.HostDataToTargetMap := by
  unfold rtlAlloc
  cases d.allocSupply <;> rfl

/-- getOrAllocTgtPtr preserves well-formedness of the interval map. -/
theorem getOrAlloc_WF (d : DeviceTy) (hp base sz : Nat) (impl upd : Bool)
    (h : MapWF d.HostDataToTargetMap) :
    MapWF ((getOrAllocTgtPtr d hp base sz impl upd).1).HostDataToTargetMap := by
  unfold getOrAllocTgtPtr
  split
  case _ e fl heq =>
    split
    · exact mapSetRef_WF h
    · exact h
  case _ heq =>
    split
    · exact h
    · split
      case _ d1 tp hra =>
        have hm : d1.HostDataToTargetMap = d.HostDataToTargetMap := by
          have h2 := rtlAlloc_map d
          rw [hra] at h2
          exact h2
        split
        · exact hm ▸ h
        · show MapWF (mapInsert d1.HostDataToTargetMap _)
          rw [hm]
          refine mapInsert_WF h ?_
          intro x hx
          exact not_flagged_disjoint (lookup_none_unflagged heq x hx) rfl rfl

/-- deallocTgtPtr preserves well-formedness of the interval map. -/
theorem dealloc_WF (d : DeviceTy) (hp sz : Nat) (force : Bool)
    (h : MapWF d.HostDataToTargetMap) :
    MapWF ((deallocTgtPtr d hp sz force).1).HostDataToTargetMap := by
  unfold deallocTgtPtr
  split
  case _ e fl heq =>
    split
    · split
      · exact h
      · split
        · exact mapErase_WF h
        · exact h
    · exact h
  case _ heq => exact h

/-- Each lifecycle call preserves well-formedness. -/
theorem applyOp_WF (d : DeviceTy) (op : MapOp)
    (h : MapWF d.HostDataToTargetMap) :
    MapWF ((applyOp d op).HostDataToTargetMap) := by
  cases op with
  | opAlloc hp base sz impl upd => exact getOrAlloc_WF d hp base sz impl upd h
  | opDealloc hp sz force => exact dealloc_WF d hp sz force h

/-- C2: confirmed.  Any sequence of getOrAllocTgtPtr and deallocTgtPtr calls
keeps the per-device interval map totally ordered by HstPtrBegin descending
(the H2DCmp set order) with no two entries whose host ranges overlap. -/
theorem interval_map_invariant (d : DeviceTy) (ops : List MapOp)
    (h : MapWF d.HostDataToTargetMap) :
    MapWF ((runOps d ops).HostDataToTargetMap) := by
  induction ops generalizing d with
  | nil => exact h
  | cons op rest ih => exact ih (applyOp d op) (applyOp_WF d op h)

/-- Witness for interval_map_invariant: two disjoint allocations, a
deallocation and a re-allocation inside the freed range, starting from the
empty map. -/
theorem interval_map_invariant_witness :
    MapWF ((runOps (mkDev [] [1000, 2000, 3000])
      [MapOp.opAlloc 4096 4096 16 false true,
       MapOp.opAlloc 8192 8192 32 false true,
       MapOp.opDealloc 4096 16 true,
       MapOp.opAlloc 4100 4100 8 false true]).HostDataToTargetMap) :=
  interval_map_invariant (mkDev [] [1000, 2000, 3000]) _ (by decide)

/-- C3: confirmed.  In target_data_begin, an argument carrying the
copy-to-device flag whose processing completes gets a host-to-device copy of
its (padding-adjusted) range exactly when the main getOrAllocTgtPtr call
reports a new entry, or the always-copy flag is set, or the argument is a
grouped member whose parent entry holds reference count one at the time of
the check. -/
theorem data_begin_copy_iff (hmem : Nat → Nat) (args : List TgtArg)
    (d : DeviceTy) (i : Nat) (a : TgtArg) (d1 : DeviceTy) (evs : List Event)
    (hTo : a.ty.isTo = true)
    (hstep : processArgBegin hmem args d i a = some (d1, evs, true)) :
    (∃ tgt, Event.submitData i tgt (a.hbegin - combinedPaddingB args i)
        (a.hsize + combinedPaddingB args i) ∈ evs) ↔
      ((tdbMainAlloc hmem args d i a).2.2 = true ∨ a.ty.isAlways = true ∨
        (∃ p pa, a.ty.memberOf = some p ∧ args.get? p = some pa ∧
          getMapEntryRefCnt (tdbMainAlloc hmem args d i a).1 pa.hbegin =
            some 1)) := by
  unfold processArgBegin at hstep
  by_cases hn : a.ty.isNested = true
  · rw [if_pos hn] at hstep
    cases hstep
  rw [if_neg hn] at hstep
  unfold tdbMainAlloc tdbPtrState tdbBaseVal tdbUpdRef
  by_cases hpo : a.ty.isPtrObj = true
  case pos =>
    simp only [hpo, reduceIte] at hstep ⊢
    set P := getOrAllocTgtPtr d a.hbase a.hbase sizeofPtr a.ty.isImplicit
      (decide (a.ty.memberOf = none)) with hP
    by_cases hz : P.2.1 = 0
    · rw [if_pos hz] at hstep
      dsimp only [] at hstep
      simp only [Option.some.injEq, Prod.mk.injEq] at hstep
      exact absurd hstep.2.2 (by simp)
    · rw [if_neg hz] at hstep
      dsimp only [] at hstep
      set R := getOrAllocTgtPtr P.1 (a.hbegin - combinedPaddingB args i)
        (hmem a.hbase) (a.hsize + combinedPaddingB args i) a.ty.isImplicit
        true with hR
      rw [if_pos hTo] at hstep
      by_cases hna : (R.2.2 || a.ty.isAlways) = true
      · rw [if_pos hna] at hstep
        dsimp only [] at hstep
        by_cases hdc : (true && R.1.IsDCEnabled &&
            decide (a.hsize + combinedPaddingB args i = sizeofPtr)) = true
        · rw [if_pos hdc] at hstep
          cases hstep
        · rw [if_neg hdc] at hstep
          simp only [reduceIte, Option.some.injEq, Prod.mk.injEq,
            and_true] at hstep
          obtain ⟨rfl, rfl⟩ := hstep
          refine iff_of_true ⟨R.2.1, ?_⟩ ?_
          · simp
          · rw [Bool.or_eq_true] at hna
            rcases hna with h | h
            · exact Or.inl h
            · exact Or.inr (Or.inl h)
      · rw [if_neg hna] at hstep
        rw [Bool.or_eq_true, not_or] at hna
        have hnew : R.2.2 = false := Bool.eq_false_iff.mpr hna.1
        have halw : a.ty.isAlways = false := Bool.eq_false_iff.mpr hna.2
        cases hmo : a.ty.memberOf with
        | none =>
          rw [hmo] at hstep
          simp only [reduceIte, Option.some.injEq, Prod.mk.injEq,
            and_true] at hstep
          obtain ⟨rfl, rfl⟩ := hstep
          refine iff_of_false ?_ ?_
          · rintro ⟨tgt, hm⟩
            by_cases hrp : a.ty.isReturnParam = true <;> simp [hrp] at hm
          · rintro (h | h | ⟨p, pa, hmo2, _, _⟩)
            · rw [hnew] at h; cases h
            · rw [halw] at h; cases h
            · cases hmo2
        | some p =>
          rw [hmo] at hstep
          dsimp only [] at hstep
          cases hpa : args.get? p with
          | none =>
            rw [hpa] at hstep
            cases hstep
          | some pa =>
            rw [hpa] at hstep
            dsimp only [] at hstep
            cases hrc : getMapEntryRefCnt R.1 pa.hbegin with
            | none =>
              rw [hrc] at hstep
              cases hstep
            | some rc =>
              rw [hrc] at hstep
              dsimp only [] at hstep
              by_cases h1 : rc = 1
              · subst h1
                rw [show (decide ((1 : Nat) = 1)) = true from rfl] at hstep
                by_cases hdc : (true && R.1.IsDCEnabled &&
                    decide (a.hsize + combinedPaddingB args i =
                      sizeofPtr)) = true
                · rw [if_pos hdc] at hstep
                  cases hstep
                · rw [if_neg hdc] at hstep
                  simp only [reduceIte, Option.some.injEq,
                    Prod.mk.injEq, and_true] at hstep
                  obtain ⟨rfl, rfl⟩ := hstep
                  refine iff_of_true ⟨R.2.1, ?_⟩ ?_
                  · simp
                  · exact Or.inr (Or.inr ⟨p, pa, rfl, hpa, hrc⟩)
              · rw [show (decide (rc = 1)) = false by simpa using h1] at hstep
                simp only [Bool.false_and, reduceIte, Option.some.injEq,
                  Prod.mk.injEq, and_true] at hstep
                obtain ⟨rfl, rfl⟩ := hstep
                refine iff_of_false ?_ ?_
                · rintro ⟨tgt, hm⟩
                  by_cases hrp : a.ty.isReturnParam = true <;> simp [hrp] at hm
                · rintro (h | h | ⟨p2, pa2, hmo2, hpa2, hrc2⟩)
                  · rw [hnew] at h; cases h
                  · rw [halw] at h; cases h
                  · cases hmo2
                    rw [hpa] at hpa2
                    cases hpa2
                    rw [hrc] at hrc2
                    cases hrc2
                    exact h1 rfl
  case neg =>
    simp only [hpo, Bool.false_eq_true, reduceIte] at hstep ⊢
    set R := getOrAllocTgtPtr d (a.hbegin - combinedPaddingB args i) a.hbase
      (a.hsize + combinedPaddingB args i) a.ty.isImplicit
      (decide (a.ty.memberOf = none)) with hR
    rw [if_pos hTo] at hstep
    by_cases hna : (R.2.2 || a.ty.isAlways) = true
    · rw [if_pos hna] at hstep
      dsimp only [] at hstep
      by_cases hdc : (true && R.1.IsDCEnabled &&
          decide (a.hsize + combinedPaddingB args i = sizeofPtr)) = true
      · rw [if_pos hdc] at hstep
        cases hstep
      · rw [if_neg hdc] at hstep
        simp only [reduceIte, Option.some.injEq, Prod.mk.injEq,
          and_true] at hstep
        obtain ⟨rfl, rfl⟩ := hstep
        refine iff_of_true ⟨R.2.1, ?_⟩ ?_
        · simp
        · rw [Bool.or_eq_true] at hna
          rcases hna with h | h
          · exact Or.inl h
          · exact Or.inr (Or.inl h)
    · rw [if_neg hna] at hstep
      rw [Bool.or_eq_true, not_or] at hna
      have hnew : R.2.2 = false := Bool.eq_false_iff.mpr hna.1
      have halw : a.ty.isAlways = false := Bool.eq_false_iff.mpr hna.2
      cases hmo : a.ty.memberOf with
      | none =>
        rw [hmo] at hstep
        simp only [reduceIte, Option.some.injEq, Prod.mk.injEq,
          and_true] at hstep
        obtain ⟨rfl, rfl⟩ := hstep
        refine iff_of_false ?_ ?_
        · rintro ⟨tgt, hm⟩
          by_cases hrp : a.ty.isReturnParam = true <;> simp [hrp] at hm
        · rintro (h | h | ⟨p, pa, hmo2, _, _⟩)
          · rw [hnew] at h; cases h
          · rw [halw] at h; cases h
          · cases hmo2
      | some p =>
        rw [hmo] at hstep
        dsimp only [] at hstep
        cases hpa : args.get? p with
        | none =>
          rw [hpa] at hstep
          cases hstep
        | some pa =>
          rw [hpa] at hstep
          dsimp only [] at hstep
          cases hrc : getMapEntryRefCnt R.1 pa.hbegin with
          | none =>
            rw [hrc] at hstep
            cases hstep
          | some rc =>
            rw [hrc] at hstep
            dsimp only [] at hstep
            by_cases h1 : rc = 1
            · subst h1
              rw [show (decide ((1 : Nat) = 1)) = true from rfl] at hstep
              by_cases hdc : (true && R.1.IsDCEnabled &&
                  decide (a.hsize + combinedPaddingB args i =
                    sizeofPtr)) = true
              · rw [if_pos hdc] at hstep
                cases hstep
              · rw [if_neg hdc] at hstep
                simp only [reduceIte, Option.some.injEq,
                  Prod.mk.injEq, and_true] at hstep
                obtain ⟨rfl, rfl⟩ := hstep
                refine iff_of_true ⟨R.2.1, ?_⟩ ?_
                · simp
                · exact Or.inr (Or.inr ⟨p, pa, rfl, hpa, hrc⟩)
            · rw [show (decide (rc = 1)) = false by simpa using h1] at hstep
              simp only [Bool.false_and, reduceIte, Option.some.injEq,
                Prod.mk.injEq, and_true] at hstep
              obtain ⟨rfl, rfl⟩ := hstep
              refine iff_of_false ?_ ?_
              · rintro ⟨tgt, hm⟩
                by_cases hrp : a.ty.isReturnParam = true <;> simp [hrp] at hm
              · rintro (h | h | ⟨p2, pa2, hmo2, hpa2, hrc2⟩)
                · rw [hnew] at h; cases h
                · rw [halw] at h; cases h
                · cases hmo2
                  rw [hpa] at hpa2
                  cases hpa2
                  rw [hrc] at hrc2
                  cases hrc2
                  exact h1 rfl

/-- Witness for data_begin_copy_iff: one fresh copy-to argument; the entry
is new, so the copy is issued. -/
theorem data_begin_copy_iff_witness :
    c3Arg.ty.isTo = true ∧
    ((∃ tgt, Event.submitData 0 tgt (c3Arg.hbegin - combinedPaddingB [c3Arg] 0)
        (c3Arg.hsize + combinedPaddingB [c3Arg] 0) ∈
        [Event.submitData 0 1000 8192 16]) ↔
      ((tdbMainAlloc zmem [c3Arg] (mkDev [] [1000]) 0 c3Arg).2.2 = true ∨
        c3Arg.ty.isAlways = true ∨
        (∃ p pa, c3Arg.ty.memberOf = some p ∧ [c3Arg].get? p = some pa ∧
          getMapEntryRefCnt
            (tdbMainAlloc zmem [c3Arg] (mkDev [] [1000]) 0 c3Arg).1
            pa.hbegin = some 1))) :=
  ⟨rfl, data_begin_copy_iff zmem [c3Arg] (mkDev [] [1000]) 0 c3Arg
    (mkDev [⟨8192, 8192, 8208, 1000, 1⟩] [])
    [Event.submitData 0 1000 8192 16] rfl rfl⟩

/-- C8: confirmed.  In target_data_update, an argument whose host range has
no live device mapping is a no-op: no event is issued, host memory and the
device are untouched, and the call continues successfully. -/
theorem data_update_noop (dmem : Nat → Nat) (d : DeviceTy) (hmem : Nat → Nat)
    (i : Nat) (a : TgtArg)
    (h : (getTgtPtrBegin d a.hbegin a.hsize false).2.1 = 0) :
    processArgUpdate dmem d hmem i a = (d, hmem, [], true) := by
  unfold processArgUpdate
  rw [if_pos h]

/-- Witness for data_update_noop: empty interval map, any argument. -/
theorem data_update_noop_witness :
    (getTgtPtrBegin (mkDev [] []) c3Arg.hbegin c3Arg.hsize false).2.1 = 0 ∧
    processArgUpdate zmem (mkDev [] []) zmem 0 c3Arg =
      (mkDev [] [], zmem, [], true) :=
  ⟨rfl, data_update_noop zmem (mkDev [] []) zmem 0 c3Arg rfl⟩

/-- C6 counterexample: refuting the immediate-path half of the claim.  With
an exhausted allocation supply, the main getOrAllocTgtPtr of the only
argument (size 16, copy-to-device) answers null, yet target_data_begin
returns OFFLOAD_SUCCESS (true) — the null check at omptarget.cpp line
315-320 only logs and does not return OFFLOAD_FAIL — and even issues the
copy with a null device pointer. -/
theorem data_begin_null_alloc_no_fail :
    target_data_begin zmem (mkDev [] []) [c3Arg] =
      some (mkDev [] [], [Event.submitData 0 0 8192 16], true) ∧
    c3Arg.hsize ≠ 0 :=
  ⟨rfl, by decide⟩

/-- getOrAllocTgtPtr leaves the IsDCEnabled mode flag unchanged. -/
theorem getOrAlloc_DC (d : DeviceTy) (hp base sz : Nat) (impl upd : Bool) :
    ((getOrAllocTgtPtr d hp base sz impl upd).1).IsDCEnabled =
      d.IsDCEnabled := by
  unfold getOrAllocTgtPtr
  split
  · split <;> rfl
  · split
    · rfl
    · split
      case _ d1 tp hra =>
        have hflag : d1.IsDCEnabled = d.IsDCEnabled := by
          have h2 : ((rtlAlloc d).1).IsDCEnabled = d.IsDCEnabled := by
            unfold rtlAlloc
            cases d.allocSupply <;> rfl
          rw [hra] at h2
          exact h2
        split
        · exact hflag
        · exact hflag

/-- C6 amended: when the main getOrAllocTgtPtr of a plain argument (no
nested descriptor, no pointer-object, not a grouped member) answers null for
a nonzero size, the bulk path fails the whole call immediately
(omptarget.cpp line 508-514), while the immediate path merely logs and
continues successfully (line 315-320). -/
theorem null_alloc_immediate_vs_bulk (hmem : Nat → Nat) (args : List TgtArg)
    (d : DeviceTy) (i : Nat) (a : TgtArg)
    (hnn : a.ty.isNested = false) (hpo : a.ty.isPtrObj = false)
    (hmo : a.ty.memberOf = none) (hdc : d.IsDCEnabled = false)
    (hz : (getOrAllocTgtPtr d (a.hbegin - combinedPaddingB args i) a.hbase
      (a.hsize + combinedPaddingB args i) a.ty.isImplicit
      (decide (a.ty.memberOf = none))).2.1 = 0)
    (hsz : a.hsize + combinedPaddingB args i ≠ 0) :
    (∃ d1 evs, processArgBegin hmem args d i a = some (d1, evs, true)) ∧
    processArgBulk hmem args d i a =
      some ((getOrAllocTgtPtr d (a.hbegin - combinedPaddingB args i) a.hbase
        (a.hsize + combinedPaddingB args i) a.ty.isImplicit
        (decide (a.ty.memberOf = none))).1, [], false) := by
  constructor
  · unfold processArgBegin
    simp only [hnn, hpo, Bool.false_eq_true, reduceIte]
    set R := getOrAllocTgtPtr d (a.hbegin - combinedPaddingB args i) a.hbase
      (a.hsize + combinedPaddingB args i) a.ty.isImplicit
      (decide (a.ty.memberOf = none)) with hR
    have hRdc : R.1.IsDCEnabled = false := by
      rw [hR, getOrAlloc_DC]
      exact hdc
    by_cases hTo : a.ty.isTo = true
    · rw [if_pos hTo]
      by_cases hna : (R.2.2 || a.ty.isAlways) = true
      · rw [if_pos hna]
        simp only [hRdc, Bool.and_false, Bool.false_and,
          Bool.false_eq_true, reduceIte]
        exact ⟨_, _, rfl⟩
      · rw [if_neg hna]
        rw [hmo]
        simp only [hRdc, Bool.and_false, Bool.false_and,
          Bool.false_eq_true, reduceIte]
        exact ⟨_, _, rfl⟩
    · rw [if_neg hTo]
      simp only [hRdc, Bool.and_false, Bool.false_and,
        Bool.false_eq_true, reduceIte]
      exact ⟨_, _, rfl⟩
  · unfold processArgBulk
    simp only [hnn, hpo, Bool.false_eq_true, reduceIte]
    set R := getOrAllocTgtPtr d (a.hbegin - combinedPaddingB args i) a.hbase
      (a.hsize + combinedPaddingB args i) a.ty.isImplicit
      (decide (a.ty.memberOf = none)) with hR
    have hcond : (decide (R.2.1 = 0) &&
        decide (a.hsize + combinedPaddingB args i ≠ 0)) = true := by
      rw [hz]
      simp [hsz]
    rw [if_pos hcond]

/-- Witness for null_alloc_immediate_vs_bulk: the exhausted-supply device
and the 16-byte copy-to argument. -/
theorem null_alloc_immediate_vs_bulk_witness :
    c3Arg.ty.isNested = false ∧ c3Arg.ty.isPtrObj = false ∧
    c3Arg.ty.memberOf = none ∧ (mkDev [] []).IsDCEnabled = false ∧
    (getOrAllocTgtPtr (mkDev [] [])
      (c3Arg.hbegin - combinedPaddingB [c3Arg] 0) c3Arg.hbase
      (c3Arg.hsize + combinedPaddingB [c3Arg] 0) c3Arg.ty.isImplicit
      (decide (c3Arg.ty.memberOf = none))).2.1 = 0 ∧
    ((∃ d1 evs, processArgBegin zmem [c3Arg] (mkDev [] []) 0 c3Arg =
        some (d1, evs, true)) ∧
      processArgBulk zmem [c3Arg] (mkDev [] []) 0 c3Arg =
        some ((getOrAllocTgtPtr (mkDev [] [])
          (c3Arg.hbegin - combinedPaddingB [c3Arg] 0) c3Arg.hbase
          (c3Arg.hsize + combinedPaddingB [c3Arg] 0) c3Arg.ty.isImplicit
          (decide (c3Arg.ty.memberOf = none))).1, [], false)) :=
  ⟨rfl, rfl, rfl, rfl, rfl,
    null_alloc_immediate_vs_bulk zmem [c3Arg] (mkDev [] []) 0 c3Arg
      rfl rfl rfl rfl rfl (by decide)⟩

/-- The scan leaves slots outside the visited keys untouched. -/
theorem shadowScanGo_apply_notmem (isFrom del : Bool) (lb : Nat) :
    ∀ (s : ShadowPtrListTy) (h : Nat → Nat) (k : Nat),
    (∀ x ∈ s, x.1 ≠ k) →
    (shadowScanGo isFrom del lb s h).2.1 k = h k := by
  intro s
  induction s with
  | nil => intro h k _; rfl
  | cons kv rest ih =>
    intro h k hne
    obtain ⟨k0, v0⟩ := kv
    unfold shadowScanGo
    by_cases hlt : k0 < lb
    · rw [if_pos hlt]
    · rw [if_neg hlt]
      dsimp only []
      have hrec : (shadowScanGo isFrom del lb rest
          (if isFrom = true then memUpd h k0 v0.HstPtrVal else h)).2.1 k =
          (if isFrom = true then memUpd h k0 v0.HstPtrVal else h) k :=
        ih _ k (fun x hx => hne x (List.mem_cons_of_mem _ hx))
      have hval : (if isFrom = true then memUpd h k0 v0.HstPtrVal else h) k =
          h k := by
        by_cases hf : isFrom = true
        · rw [if_pos hf]
          unfold memUpd
          rw [if_neg (fun he => hne (k0, v0) (List.mem_cons_self _ _)
            he.symm)]
        · rw [if_neg hf]
      by_cases hdel : del = true
      · rw [if_pos hdel]
        dsimp only []
        rw [hrec, hval]
      · rw [if_neg hdel]
        dsimp only []
        rw [hrec, hval]

/-- With copy-from-device set, every entry at or above the lower bound has
its host slot restored to the recorded original value. -/
theorem shadowScanGo_restore (del : Bool) (lb : Nat) :
    ∀ (s : ShadowPtrListTy) (h : Nat → Nat),
    ShadowSorted s →
    ∀ k v, (k, v) ∈ s → lb ≤ k →
    (shadowScanGo true del lb s h).2.1 k = v.HstPtrVal := by
  intro s
  induction s with
  | nil => intro h _ k v hm; cases hm
  | cons kv rest ih =>
    intro h hs k v hm hk
    obtain ⟨k0, v0⟩ := kv
    obtain ⟨hhead, htail⟩ := List.pairwise_cons.mp hs
    unfold shadowScanGo
    by_cases hlt : k0 < lb
    · exfalso
      cases hm with
      | head => omega
      | tail _ hm2 =>
        have := hhead (k, v) hm2
        simp only at this
        omega
    · rw [if_neg hlt]
      dsimp only []
      cases hm with
      | head =>
        have hrec := shadowScanGo_apply_notmem true del lb rest
          (if true = true then memUpd h k v.HstPtrVal else h) k
          (fun x hx => by
            have := hhead x hx
            omega)
        by_cases hdel : del = true
        · rw [if_pos hdel]
          dsimp only []
          rw [hrec]
          simp [memUpd]
        · rw [if_neg hdel]
          dsimp only []
          rw [hrec]
          simp [memUpd]
      | tail _ hm2 =>
        have hrec := ih (if true = true then memUpd h k0 v0.HstPtrVal else h)
          htail k v hm2 hk
        by_cases hdel : del = true
        · rw [if_pos hdel]
          dsimp only []
          rw [hrec]
        · rw [if_neg hdel]
          dsimp only []
          rw [hrec]

/-- The visited keys are exactly those at or above the lower bound, in list
order. -/
theorem shadowScanGo_visited (isFrom del : Bool) (lb : Nat) :
    ∀ (s : ShadowPtrListTy) (h : Nat → Nat),
    ShadowSorted s →
    (shadowScanGo isFrom del lb s h).2.2 =
      (s.map Prod.fst).filter (fun k => decide (lb ≤ k)) := by
  cases del <;>
  · intro s
    induction s with
    | nil => intro h _; rfl
    | cons kv rest ih =>
      intro h hs
      obtain ⟨k0, v0⟩ := kv
      obtain ⟨hhead, htail⟩ := List.pairwise_cons.mp hs
      unfold shadowScanGo
      by_cases hlt : k0 < lb
      · rw [if_pos hlt]
        dsimp only []
        rw [List.map_cons, List.filter_cons]
        have hcond : (decide (lb ≤ k0)) = false := by
          simp only [decide_eq_false_iff_not]
          omega
        rw [hcond]
        simp only [Bool.false_eq_true, if_false]
        symm
        rw [List.filter_eq_nil_iff]
        intro a ha
        obtain ⟨x, hx, rfl⟩ := List.mem_map.mp ha
        have := hhead x hx
        simp only [decide_eq_true_eq]
        omega
      · rw [if_neg hlt]
        dsimp only []
        rw [List.map_cons, List.filter_cons]
        have hcond : (decide (lb ≤ k0)) = true := by
          simp only [decide_eq_true_eq]
          omega
        rw [hcond]
        simp only [if_true]
        rw [ih _ htail]
        try simp only [reduceIte]
        try rfl

/-- With deletion requested, the entries at or above the lower bound are
erased. -/
theorem shadowScanGo_list_del (isFrom : Bool) (lb : Nat) :
    ∀ (s : ShadowPtrListTy) (h : Nat → Nat),
    ShadowSorted s →
    (shadowScanGo isFrom true lb s h).1 =
      s.filter (fun kv => decide (kv.1 < lb)) := by
  intro s
  induction s with
  | nil => intro h _; rfl
  | cons kv rest ih =>
    intro h hs
    obtain ⟨k0, v0⟩ := kv
    obtain ⟨hhead, htail⟩ := List.pairwise_cons.mp hs
    unfold shadowScanGo
    by_cases hlt : k0 < lb
    · rw [if_pos hlt]
      dsimp only []
      rw [List.filter_cons]
      have hcond : (decide ((k0, v0).1 < lb)) = true := by
        simp only [decide_eq_true_eq]
        exact hlt
      rw [hcond]
      simp only [if_true]
      congr 1
      symm
      rw [List.filter_eq_self]
      intro x hx
      have := hhead x hx
      simp only [decide_eq_true_eq]
      omega
    · rw [if_neg hlt]
      dsimp only []
      rw [List.filter_cons]
      have hcond : (decide ((k0, v0).1 < lb)) = false := by
        simp only [decide_eq_false_iff_not]
        exact hlt
      rw [hcond]
      simp only [Bool.false_eq_true, if_false]
      exact ih _ htail

/-- Without deletion, the shadow list is unchanged by the scan. -/
theorem shadowScanGo_list_keep (isFrom : Bool) (lb : Nat) :
    ∀ (s : ShadowPtrListTy) (h : Nat → Nat),
    (shadowScanGo isFrom false lb s h).1 = s := by
  intro s
  induction s with
  | nil => intro h; rfl
  | cons kv rest ih =>
    intro h
    obtain ⟨k0, v0⟩ := kv
    unfold shadowScanGo
    by_cases hlt : k0 < lb
    · rw [if_pos hlt]
    · rw [if_neg hlt]
      dsimp only []
      rw [ih]
      try simp only [reduceIte]
      try rfl

/-- Entries surviving the dropWhile of the scan start are strictly below the
upper bound, by sortedness. -/
theorem sorted_dropWhile_lt (ub : Nat) :
    ∀ (s : ShadowPtrListTy), ShadowSorted s →
    ∀ x ∈ s.dropWhile (fun kv => decide (kv.1 ≥ ub)), x.1 < ub := by
  intro s
  induction s with
  | nil => intro _ x hx; cases hx
  | cons kv rest ih =>
    intro hs x hx
    obtain ⟨hhead, htail⟩ := List.pairwise_cons.mp hs
    rw [List.dropWhile_cons] at hx
    by_cases hge : kv.1 ≥ ub
    · rw [if_pos (by simpa using hge)] at hx
      exact ih htail x hx
    · rw [if_neg (by simpa using hge)] at hx
      cases hx with
      | head => omega
      | tail _ hx2 =>
        have := hhead x hx2
        omega

/-- Sortedness restricts to the dropWhile suffix. -/
theorem sorted_dropWhile (p : Nat × ShadowPtrValTy → Bool)
    (s : ShadowPtrListTy) (hs : ShadowSorted s) :
    ShadowSorted (s.dropWhile p) :=
  List.Pairwise.sublist (List.dropWhile_sublist _) hs

/-- Restoration on the full scan: every shadow entry whose slot lies in
[lb, ub) ends with its recorded original host value. -/
theorem shadowScan_restore (s : ShadowPtrListTy) (h : Nat → Nat)
    (lb ub : Nat) (del : Bool) (hs : ShadowSorted s) :
    ∀ k v, (k, v) ∈ s → lb ≤ k → k < ub →
    (shadowScan s h lb ub true del).2.1 k = v.HstPtrVal := by
  intro k v hm hlb hub
  unfold shadowScan
  try dsimp only []
  have hsplit := List.takeWhile_append_dropWhile
    (p := fun kv : Nat × ShadowPtrValTy => decide (kv.1 ≥ ub)) (l := s)
  have hmem2 : (k, v) ∈ s.dropWhile
      (fun kv : Nat × ShadowPtrValTy => decide (kv.1 ≥ ub)) := by
    rw [← hsplit] at hm
    rcases List.mem_append.mp hm with hin | hin
    · exfalso
      have := List.mem_takeWhile_imp hin
      simp only [decide_eq_true_eq] at this
      omega
    · exact hin
  exact shadowScanGo_restore del lb _ h (sorted_dropWhile _ s hs) k v hmem2 hlb

/-- The visit order of the full scan: exactly the keys in [lb, ub), in the
map's descending iteration order. -/
theorem shadowScan_visited (s : ShadowPtrListTy) (h : Nat → Nat)
    (lb ub : Nat) (isFrom del : Bool) (hs : ShadowSorted s) :
    (shadowScan s h lb ub isFrom del).2.2 =
      (s.map Prod.fst).filter
        (fun k => decide (lb ≤ k) && decide (k < ub)) := by
  unfold shadowScan
  try dsimp only []
  rw [shadowScanGo_visited isFrom del lb _ h (sorted_dropWhile _ s hs)]
  conv_rhs =>
    rw [← List.takeWhile_append_dropWhile
      (p := fun kv : Nat × ShadowPtrValTy => decide (kv.1 ≥ ub)) (l := s)]
  rw [List.map_append, List.filter_append]
  have h1 : (List.filter (fun k => decide (lb ≤ k) && decide (k < ub))
      (List.map Prod.fst (s.takeWhile
        (fun kv : Nat × ShadowPtrValTy => decide (kv.1 ≥ ub))))) = [] := by
    rw [List.filter_eq_nil_iff]
    intro a ha
    obtain ⟨x, hx, rfl⟩ := List.mem_map.mp ha
    have := List.mem_takeWhile_imp hx
    simp only [decide_eq_true_eq] at this
    simp only [Bool.and_eq_true, decide_eq_true_eq, not_and]
    omega
  rw [h1, List.nil_append]
  apply List.filter_congr
  intro a ha
  obtain ⟨x, hx, rfl⟩ := List.mem_map.mp ha
  have hxu := sorted_dropWhile_lt ub s hs x hx
  have h2 : (decide (x.1 < ub)) = true := by
    simp only [decide_eq_true_eq]
    exact hxu
  rw [h2, Bool.and_true]

/-- With deletion, exactly the in-range entries are erased. -/
theorem shadowScan_list_del (s : ShadowPtrListTy) (h : Nat → Nat)
    (lb ub : Nat) (isFrom : Bool) (hs : ShadowSorted s) :
    (shadowScan s h lb ub isFrom true).1 =
      s.filter (fun kv => !(decide (lb ≤ kv.1) && decide (kv.1 < ub))) := by
  unfold shadowScan
  try dsimp only []
  rw [shadowScanGo_list_del isFrom lb _ h (sorted_dropWhile _ s hs)]
  conv_rhs =>
    rw [← List.takeWhile_append_dropWhile
      (p := fun kv : Nat × ShadowPtrValTy => decide (kv.1 ≥ ub)) (l := s)]
  rw [List.filter_append]
  have h1 : (s.takeWhile
      (fun kv : Nat × ShadowPtrValTy => decide (kv.1 ≥ ub))).filter
      (fun kv => !(decide (lb ≤ kv.1) && decide (kv.1 < ub))) =
      s.takeWhile (fun kv : Nat × ShadowPtrValTy => decide (kv.1 ≥ ub)) := by
    rw [List.filter_eq_self]
    intro x hx
    have := List.mem_takeWhile_imp hx
    simp only [decide_eq_true_eq] at this
    simp only [Bool.not_eq_true']
    rw [Bool.and_eq_false_iff]
    right
    simp only [decide_eq_false_iff_not, not_lt]
    omega
  rw [h1]
  congr 1
  apply List.filter_congr
  intro x hx
  have hxu := sorted_dropWhile_lt ub s hs x hx
  have h2 : (decide (x.1 < ub)) = true := by
    simp only [decide_eq_true_eq]
    exact hxu
  rw [h2, Bool.and_true]
  by_cases h3 : x.1 < lb
  · have h4 : ¬ lb ≤ x.1 := by omega
    simp [h3, h4]
  · have h4 : lb ≤ x.1 := by omega
    simp [h3, h4]

/-- Without deletion, the full scan leaves the shadow list unchanged. -/
theorem shadowScan_list_keep (s : ShadowPtrListTy) (h : Nat → Nat)
    (lb ub : Nat) (isFrom : Bool) :
    (shadowScan s h lb ub isFrom false).1 = s := by
  unfold shadowScan
  try dsimp only []
  rw [shadowScanGo_list_keep]
  exact List.takeWhile_append_dropWhile _ _

/-- getTgtPtrBegin changes at most the interval map: shadow map and mode
flags are untouched. -/
theorem getTgt_env (d : DeviceTy) (hp sz : Nat) (u : Bool) :
    (getTgtPtrBegin d hp sz u).1.ShadowPtrMap = d.ShadowPtrMap ∧
    (getTgtPtrBegin d hp sz u).1.IsATEnabled = d.IsATEnabled ∧
    (getTgtPtrBegin d hp sz u).1.IsDCEnabled = d.IsDCEnabled ∧
    (getTgtPtrBegin d hp sz u).1.IsBulkEnabled = d.IsBulkEnabled := by
  unfold getTgtPtrBegin
  split
  · split
    · split
      · exact ⟨rfl, rfl, rfl, rfl⟩
      · exact ⟨rfl, rfl, rfl, rfl⟩
    · exact ⟨rfl, rfl, rfl, rfl⟩
  · exact ⟨rfl, rfl, rfl, rfl⟩

/-- deallocTgtPtr changes at most the interval map: the shadow map is
untouched. -/
theorem dealloc_shadow (d : DeviceTy) (hp sz : Nat) (f : Bool) :
    (deallocTgtPtr d hp sz f).1.ShadowPtrMap = d.ShadowPtrMap := by
  unfold deallocTgtPtr
  split
  · split
    · split
      · rfl
      · split
        · rfl
        · rfl
    · rfl
  · rfl

/-- C5: confirmed.  In target_data_end, on an argument whose direction
includes copy-from-device (a device-to-host copy, when performed, covers the
padded range [lb, ub)): every shadow entry whose slot address lies in that
range ends with its host slot holding the recorded original host value; the
scan's visit order is exactly the in-range keys in the shadow map's
descending iteration order, starting below ub and stopping below lb; and
when the mapping entry is deleted exactly the in-range shadow entries are
erased, otherwise the shadow map is unchanged. -/
theorem data_end_shadow_restore (dmem : Nat → Nat) (args : List TgtArg)
    (d : DeviceTy) (hmem : Nat → Nat) (i : Nat) (a : TgtArg)
    (d2 : DeviceTy) (h2 : Nat → Nat) (evs : List Event) (ok : Bool)
    (hsorted : ShadowSorted d.ShadowPtrMap)
    (hAT : d.IsATEnabled = false)
    (hDC : d.IsDCEnabled = false)
    (hFrom : a.ty.isFrom = true)
    (hstep : processArgEnd dmem args d hmem i a = some (d2, h2, evs, ok)) :
    (∀ k v, (k, v) ∈ d.ShadowPtrMap →
      a.hbegin - combinedPaddingE args i ≤ k →
      k < a.hbegin - combinedPaddingE args i +
        (a.hsize + combinedPaddingE args i) →
      h2 k = v.HstPtrVal) ∧
    ((shadowScan d.ShadowPtrMap hmem (a.hbegin - combinedPaddingE args i)
        (a.hbegin - combinedPaddingE args i +
          (a.hsize + combinedPaddingE args i))
        a.ty.isFrom (tdeDelEntry args d i a)).2.2 =
      (d.ShadowPtrMap.map Prod.fst).filter
        (fun k => decide (a.hbegin - combinedPaddingE args i ≤ k) &&
          decide (k < a.hbegin - combinedPaddingE args i +
            (a.hsize + combinedPaddingE args i)))) ∧
    (tdeDelEntry args d i a = true →
      d2.ShadowPtrMap = d.ShadowPtrMap.filter
        (fun kv => !(decide (a.hbegin - combinedPaddingE args i ≤ kv.1) &&
          decide (kv.1 < a.hbegin - combinedPaddingE args i +
            (a.hsize + combinedPaddingE args i))))) ∧
    (tdeDelEntry args d i a = false → d2.ShadowPtrMap = d.ShadowPtrMap) := by
  refine ⟨?_, shadowScan_visited _ _ _ _ _ _ hsorted, ?_, ?_⟩ <;>
  · unfold processArgEnd at hstep
    try unfold tdeDelEntry tdeLookup
    by_cases hn : a.ty.isNested = true
    · rw [if_pos hn] at hstep
      cases hstep
    rw [if_neg hn] at hstep
    by_cases hb : d.IsBulkEnabled = true
    · rw [if_pos hb] at hstep
      cases hstep
    rw [if_neg hb] at hstep
    dsimp only [] at hstep
    set L := getTgtPtrBegin d (a.hbegin - combinedPaddingE args i)
      (a.hsize + combinedPaddingE args i)
      (decide (a.ty.memberOf = none ∨ a.ty.isPtrObj = true)) with hL
    have henv := getTgt_env d (a.hbegin - combinedPaddingE args i)
      (a.hsize + combinedPaddingE args i)
      (decide (a.ty.memberOf = none ∨ a.ty.isPtrObj = true))
    rw [← hL] at henv
    have hLsh : L.1.ShadowPtrMap = d.ShadowPtrMap := henv.1
    have hLat : L.1.IsATEnabled = false := by rw [henv.2.1]; exact hAT
    have hLdc : L.1.IsDCEnabled = false := by rw [henv.2.2.1]; exact hDC
    rw [if_pos (by rw [hFrom]; simp : (a.ty.isFrom ||
      ((L.2.2 || a.ty.isDelete) &&
        !(decide (a.ty.memberOf ≠ none) && !a.ty.isPtrObj))) = true)] at hstep
    cases hcd : tdeCopyDecision args L.1 i a
        ((L.2.2 || a.ty.isDelete) &&
          !(decide (a.ty.memberOf ≠ none) && !a.ty.isPtrObj)) with
    | none =>
      rw [hcd] at hstep
      cases hstep
    | some doCopy =>
      rw [hcd] at hstep
      dsimp only [] at hstep
      rw [if_neg (show ¬ ((doCopy && L.1.IsDCEnabled &&
        decide (a.hsize + combinedPaddingE args i = sizeofPtr)) = true) by
          rw [hLdc]; simp)] at hstep
      rw [if_neg (show ¬ (L.1.IsATEnabled = true) by
        rw [hLat]; simp)] at hstep
      rw [hLsh, hFrom] at hstep
      by_cases hdel : ((L.2.2 || a.ty.isDelete) &&
          !(decide (a.ty.memberOf ≠ none) && !a.ty.isPtrObj)) = true
      · rw [if_pos hdel] at hstep
        simp only [Option.some.injEq, Prod.mk.injEq] at hstep
        obtain ⟨hd2, hh2, _, _⟩ := hstep
        first
        | (intro k v hm hlb hub
           rw [← hh2]
           exact shadowScan_restore d.ShadowPtrMap _ _ _ _ hsorted k v hm hlb
             hub)
        | (intro _
           rw [← hd2, dealloc_shadow]
           dsimp only []
           rw [hdel]
           exact shadowScan_list_del _ _ _ _ _ hsorted)
        | (intro hfalse
           rw [hdel] at hfalse
           cases hfalse)
      · rw [if_neg hdel] at hstep
        simp only [Option.some.injEq, Prod.mk.injEq] at hstep
        obtain ⟨hd2, hh2, _, _⟩ := hstep
        have hdel2 : ((L.2.2 || a.ty.isDelete) &&
            !(decide (a.ty.memberOf ≠ none) && !a.ty.isPtrObj)) = false :=
          Bool.eq_false_iff.mpr hdel
        first
        | (intro k v hm hlb hub
           rw [← hh2]
           exact shadowScan_restore d.ShadowPtrMap _ _ _ _ hsorted k v hm hlb
             hub)
        | (intro hfalse
           exact absurd hfalse hdel)
        | (intro _
           rw [← hd2]
           dsimp only []
           rw [hdel2]
           exact shadowScan_list_keep _ _ _ _ _)

/-- Witness for data_end_shadow_restore: region end on the mapped range with
one in-range shadow slot; the slot is restored to 77 and erased together
with the mapping. -/
theorem data_end_shadow_restore_witness :
    ShadowSorted c5Dev.ShadowPtrMap ∧
    ((∀ k v, (k, v) ∈ c5Dev.ShadowPtrMap →
      c5Arg.hbegin - combinedPaddingE [c5Arg] 0 ≤ k →
      k < c5Arg.hbegin - combinedPaddingE [c5Arg] 0 +
        (c5Arg.hsize + combinedPaddingE [c5Arg] 0) →
      memUpd c5Hmem1 8200 77 k = v.HstPtrVal) ∧
    ((shadowScan c5Dev.ShadowPtrMap zmem
        (c5Arg.hbegin - combinedPaddingE [c5Arg] 0)
        (c5Arg.hbegin - combinedPaddingE [c5Arg] 0 +
          (c5Arg.hsize + combinedPaddingE [c5Arg] 0))
        c5Arg.ty.isFrom (tdeDelEntry [c5Arg] c5Dev 0 c5Arg)).2.2 =
      (c5Dev.ShadowPtrMap.map Prod.fst).filter
        (fun k => decide (c5Arg.hbegin - combinedPaddingE [c5Arg] 0 ≤ k) &&
          decide (k < c5Arg.hbegin - combinedPaddingE [c5Arg] 0 +
            (c5Arg.hsize + combinedPaddingE [c5Arg] 0)))) ∧
    (tdeDelEntry [c5Arg] c5Dev 0 c5Arg = true →
      c5DevAfter.ShadowPtrMap = c5Dev.ShadowPtrMap.filter
        (fun kv =>
          !(decide (c5Arg.hbegin - combinedPaddingE [c5Arg] 0 ≤ kv.1) &&
            decide (kv.1 < c5Arg.hbegin - combinedPaddingE [c5Arg] 0 +
              (c5Arg.hsize + combinedPaddingE [c5Arg] 0))))) ∧
    (tdeDelEntry [c5Arg] c5Dev 0 c5Arg = false →
      c5DevAfter.ShadowPtrMap = c5Dev.ShadowPtrMap)) :=
  ⟨by simp [ShadowSorted, c5Dev],
    data_end_shadow_restore zmem [c5Arg] c5Dev zmem 0 c5Arg c5DevAfter
      (memUpd c5Hmem1 8200 77)
      [Event.retrieveData 0 8192 1000 16, Event.deallocEv 0 8192 16 false]
      true (by simp [ShadowSorted, c5Dev]) rfl rfl rfl rfl⟩

/-- Loop lemma for target_data_end: a run over the index list L that ends in
success visits exactly the indices of L, in L's order, provided every index
is in range of the argument array. -/
theorem tdeGo_visits (dmem : Nat → Nat) (args : List TgtArg) :
    ∀ (L : List Nat) (d : DeviceTy) (hmem : Nat → Nat)
      (d2 : DeviceTy) (h2 : Nat → Nat) (evs : List Event) (vis : List Nat),
      (∀ j ∈ L, j < args.length) →
      tdeGo dmem args d hmem L = some (d2, h2, evs, vis, true) →
      vis = L := by
  intro L
  induction L with
  | nil =>
    intro d hmem d2 h2 evs vis _ hstep
    simp only [tdeGo, Option.some.injEq, Prod.mk.injEq] at hstep
    exact hstep.2.2.2.1.symm
  | cons j rest ih =>
    intro d hmem d2 h2 evs vis hbound hstep
    have hj : j < args.length := hbound j (by simp)
    unfold tdeGo at hstep
    cases hg : args.get? j with
    | none =>
      rw [List.get?_eq_none] at hg
      omega
    | some a =>
      rw [hg] at hstep
      dsimp only [] at hstep
      by_cases hlp : (a.ty.isLiteral || a.ty.isPrivate) = true
      · rw [if_pos hlp] at hstep
        cases hrec : tdeGo dmem args d hmem rest with
        | none =>
          rw [hrec] at hstep
          exact Option.noConfusion hstep
        | some t =>
          obtain ⟨d2x, h2x, evs2, vis2, ok2⟩ := t
          rw [hrec] at hstep
          dsimp only [] at hstep
          simp only [Option.some.injEq, Prod.mk.injEq] at hstep
          obtain ⟨-, -, -, hvis, hok⟩ := hstep
          rw [hok] at hrec
          have hv2 := ih d hmem d2x h2x evs2 vis2
            (fun x hx => hbound x (List.mem_cons_of_mem _ hx)) hrec
          rw [← hvis, hv2]
      · rw [if_neg hlp] at hstep
        cases hpe : processArgEnd dmem args d hmem j a with
        | none =>
          rw [hpe] at hstep
          exact Option.noConfusion hstep
        | some t =>
          obtain ⟨d1, h1, evs1, ok⟩ := t
          rw [hpe] at hstep
          dsimp only [] at hstep
          cases ok with
          | false =>
            simp at hstep
          | true =>
            simp only [reduceIte] at hstep
            cases hrec : tdeGo dmem args d1 h1 rest with
            | none =>
              rw [hrec] at hstep
              exact Option.noConfusion hstep
            | some t2 =>
              obtain ⟨d2x, h2x, evs2, vis2, ok2⟩ := t2
              rw [hrec] at hstep
              dsimp only [] at hstep
              simp only [Option.some.injEq, Prod.mk.injEq] at hstep
              obtain ⟨-, -, -, hvis, hok⟩ := hstep
              rw [hok] at hrec
              have hv2 := ih d1 h1 d2x h2x evs2 vis2
                (fun x hx => hbound x (List.mem_cons_of_mem _ hx)) hrec
              rw [← hvis, hv2]

/-- C7: a successful target_data_end visits the argument indices in reverse
order, from arg_num-1 down to 0; the padding it recomputes for combined
struct entries equals target_data_begin's padding at every index; the
entry-deletion decision equals isLast-of-the-refcount-decremented-lookup or
the forced delete flag, masked off for a grouped member that is not
PTR_AND_OBJ (which therefore never deallocates); and an argument emits a
deallocation of its padded device range exactly when that decision holds. -/
theorem data_end_reverse_padding_dealloc
    (dmem : Nat → Nat) (args : List TgtArg) (d : DeviceTy)
    (hmem : Nat → Nat) (d2 : DeviceTy) (h2 : Nat → Nat) (evs : List Event)
    (vis : List Nat)
    (hrun : target_data_end dmem d hmem args =
      some (d2, h2, evs, vis, true)) :
    vis = (List.range args.length).reverse ∧
    (∀ i, combinedPaddingE args i = combinedPaddingB args i) ∧
    (∀ (d0 : DeviceTy) (i : Nat) (a : TgtArg),
      tdeDelEntry args d0 i a =
        (((getTgtPtrBegin d0 (a.hbegin - combinedPaddingE args i)
            (a.hsize + combinedPaddingE args i)
            (decide (a.ty.memberOf = none ∨ a.ty.isPtrObj = true))).2.2 ||
          a.ty.isDelete) &&
          !(decide (a.ty.memberOf ≠ none) && !a.ty.isPtrObj))) ∧
    (∀ (d0 : DeviceTy) (i : Nat) (a : TgtArg),
      a.ty.memberOf ≠ none → a.ty.isPtrObj = false →
      tdeDelEntry args d0 i a = false) ∧
    (∀ (d0 : DeviceTy) (h0 : Nat → Nat) (i : Nat) (a : TgtArg)
      (d1 : DeviceTy) (h1 : Nat → Nat) (evs1 : List Event) (ok : Bool),
      processArgEnd dmem args d0 h0 i a = some (d1, h1, evs1, ok) →
      ((∃ force, Event.deallocEv i (a.hbegin - combinedPaddingE args i)
          (a.hsize + combinedPaddingE args i) force ∈ evs1) ↔
        tdeDelEntry args d0 i a = true)) := by
  refine ⟨?_, ?_, ?_, ?_, ?_⟩
  · exact tdeGo_visits dmem args (List.range args.length).reverse d hmem d2
      h2 evs vis (fun j hj => List.mem_range.mp (List.mem_reverse.mp hj))
      hrun
  · intro i
    unfold combinedPaddingB combinedPaddingE
    cases args.get? i <;> cases args.get? (i + 1) <;> rfl
  · intro d0 i a
    rfl
  · intro d0 i a hmo hpo
    simp [tdeDelEntry, tdeLookup, hmo, hpo]
  · intro d0 h0 i a d1 h1 evs1 ok hpe
    unfold processArgEnd at hpe
    by_cases hn : a.ty.isNested = true
    · rw [if_pos hn] at hpe
      cases hpe
    rw [if_neg hn] at hpe
    by_cases hbk : d0.IsBulkEnabled = true
    · rw [if_pos hbk] at hpe
      cases hpe
    rw [if_neg hbk] at hpe
    dsimp only [] at hpe
    set L := getTgtPtrBegin d0 (a.hbegin - combinedPaddingE args i)
      (a.hsize + combinedPaddingE args i)
      (decide (a.ty.memberOf = none ∨ a.ty.isPtrObj = true)) with hL
    have hDe : tdeDelEntry args d0 i a =
        ((L.2.2 || a.ty.isDelete) &&
          !(decide (a.ty.memberOf ≠ none) && !a.ty.isPtrObj)) := by
      rw [hL]
      rfl
    rw [hDe]
    by_cases hfd : (a.ty.isFrom ||
        ((L.2.2 || a.ty.isDelete) &&
          !(decide (a.ty.memberOf ≠ none) && !a.ty.isPtrObj))) = true
    · rw [if_pos hfd] at hpe
      cases hcd : tdeCopyDecision args L.1 i a
          ((L.2.2 || a.ty.isDelete) &&
            !(decide (a.ty.memberOf ≠ none) && !a.ty.isPtrObj)) with
      | none =>
        rw [hcd] at hpe
        cases hpe
      | some doCopy =>
        rw [hcd] at hpe
        dsimp only [] at hpe
        by_cases hdc : (doCopy && L.1.IsDCEnabled &&
            decide (a.hsize + combinedPaddingE args i = sizeofPtr)) = true
        · rw [if_pos hdc] at hpe
          cases hpe
        rw [if_neg hdc] at hpe
        by_cases hdel : ((L.2.2 || a.ty.isDelete) &&
            !(decide (a.ty.memberOf ≠ none) && !a.ty.isPtrObj)) = true
        · rw [if_pos hdel] at hpe
          simp only [Option.some.injEq, Prod.mk.injEq] at hpe
          obtain ⟨-, -, hevs, -⟩ := hpe
          rw [hdel]
          constructor
          · intro _
            rfl
          · intro _
            refine ⟨a.ty.isDelete, ?_⟩
            rw [← hevs]
            simp
        · rw [if_neg hdel] at hpe
          simp only [Option.some.injEq, Prod.mk.injEq] at hpe
          obtain ⟨-, -, hevs, -⟩ := hpe
          constructor
          · rintro ⟨f, hf⟩
            rw [← hevs] at hf
            exfalso
            cases doCopy <;> simp at hf
          · intro hcontra
            exact absurd hcontra hdel
    · rw [if_neg hfd] at hpe
      simp only [Option.some.injEq, Prod.mk.injEq] at hpe
      obtain ⟨-, -, hevs, -⟩ := hpe
      rw [Bool.or_eq_true, not_or] at hfd
      constructor
      · rintro ⟨f, hf⟩
        rw [← hevs] at hf
        exact absurd hf (List.not_mem_nil _)
      · intro hcontra
        exact absurd hcontra hfd.2

/-- Witness for data_end_reverse_padding_dealloc: region end over a single
mapped argument succeeds, visits index 0, copies back and deallocates. -/
theorem data_end_reverse_padding_dealloc_witness :
    target_data_end zmem c7Dev zmem [c7Arg] =
      some (c7DevAfter, c7H2,
        [Event.retrieveData 0 4096 500 8, Event.deallocEv 0 4096 8 false],
        [0], true) ∧
    (([0] : List Nat) = (List.range ([c7Arg] : List TgtArg).length).reverse ∧
    (∀ i, combinedPaddingE [c7Arg] i = combinedPaddingB [c7Arg] i) ∧
    (∀ (d0 : DeviceTy) (i : Nat) (a : TgtArg),
      tdeDelEntry [c7Arg] d0 i a =
        (((getTgtPtrBegin d0 (a.hbegin - combinedPaddingE [c7Arg] i)
            (a.hsize + combinedPaddingE [c7Arg] i)
            (decide (a.ty.memberOf = none ∨ a.ty.isPtrObj = true))).2.2 ||
          a.ty.isDelete) &&
          !(decide (a.ty.memberOf ≠ none) && !a.ty.isPtrObj))) ∧
    (∀ (d0 : DeviceTy) (i : Nat) (a : TgtArg),
      a.ty.memberOf ≠ none → a.ty.isPtrObj = false →
      tdeDelEntry [c7Arg] d0 i a = false) ∧
    (∀ (d0 : DeviceTy) (h0 : Nat → Nat) (i : Nat) (a : TgtArg)
      (d1 : DeviceTy) (h1 : Nat → Nat) (evs1 : List Event) (ok : Bool),
      processArgEnd zmem [c7Arg] d0 h0 i a = some (d1, h1, evs1, ok) →
      ((∃ force, Event.deallocEv i (a.hbegin - combinedPaddingE [c7Arg] i)
          (a.hsize + combinedPaddingE [c7Arg] i) force ∈ evs1) ↔
        tdeDelEntry [c7Arg] d0 i a = true))) :=
  ⟨rfl, data_end_reverse_padding_dealloc zmem [c7Arg] c7Dev zmem c7DevAfter
    c7H2 [Event.retrieveData 0 4096 500 8, Event.deallocEv 0 4096 8 false]
    [0] rfl⟩

/-- The immediate target_data_begin step never touches private arrays: its
events are submits, pointer patches and return parameters. -/
theorem processArgBegin_noPriv (hmem : Nat → Nat) (args : List TgtArg)
    (d : DeviceTy) (i : Nat) (a : TgtArg) (d1 : DeviceTy) (evs : List Event)
    (ok : Bool)
    (h : processArgBegin hmem args d i a = some (d1, evs, ok)) :
    evs.all noPrivEv = true := by
  unfold processArgBegin at h
  dsimp only [] at h
  repeat' split at h
  all_goals cases h
  all_goals rfl

/-- The immediate target_data_begin loop never touches private arrays. -/
theorem tdbGo_noPriv (hmem : Nat → Nat) (args : List TgtArg) :
    ∀ (L : List Nat) (d : DeviceTy) (d1 : DeviceTy) (evs : List Event)
      (ok : Bool),
      tdbGo hmem args d L = some (d1, evs, ok) →
      evs.all noPrivEv = true := by
  intro L
  induction L with
  | nil =>
    intro d d1 evs ok h
    simp only [tdbGo, Option.some.injEq, Prod.mk.injEq] at h
    rw [← h.2.1]
    rfl
  | cons j rest ih =>
    intro d d1 evs ok h
    unfold tdbGo at h
    cases hg : args.get? j with
    | none =>
      rw [hg] at h
      dsimp only [] at h
      exact ih d d1 evs ok h
    | some a =>
      rw [hg] at h
      dsimp only [] at h
      by_cases hlp : (a.ty.isLiteral || a.ty.isPrivate) = true
      · rw [if_pos hlp] at h
        exact ih d d1 evs ok h
      · rw [if_neg hlp] at h
        cases hpe : processArgBegin hmem args d j a with
        | none =>
          rw [hpe] at h
          exact Option.noConfusion h
        | some t =>
          obtain ⟨dx, evsx, okx⟩ := t
          rw [hpe] at h
          dsimp only [] at h
          cases okx with
          | false =>
            rw [if_neg (by decide : ¬(false = true))] at h
            simp only [Option.some.injEq, Prod.mk.injEq] at h
            obtain ⟨-, hevs, -⟩ := h
            rw [← hevs]
            exact processArgBegin_noPriv hmem args d j a dx evsx false hpe
          | true =>
            rw [if_pos rfl] at h
            cases hrec : tdbGo hmem args dx rest with
            | none =>
              rw [hrec] at h
              exact Option.noConfusion h
            | some t2 =>
              obtain ⟨d2x, evs2, ok2⟩ := t2
              rw [hrec] at h
              dsimp only [] at h
              simp only [Option.some.injEq, Prod.mk.injEq] at h
              obtain ⟨-, hevs, -⟩ := h
              rw [← hevs, List.all_append,
                processArgBegin_noPriv hmem args d j a dx evsx true hpe,
                ih dx d2x evs2 ok2 hrec]
              rfl

/-- The target_data_end step never touches private arrays: its events are
retrieves and mapping deallocations. -/
theorem processArgEnd_noPriv (dmem : Nat → Nat) (args : List TgtArg)
    (d : DeviceTy) (hm : Nat → Nat) (i : Nat) (a : TgtArg) (d1 : DeviceTy)
    (h1 : Nat → Nat) (evs : List Event) (ok : Bool)
    (h : processArgEnd dmem args d hm i a = some (d1, h1, evs, ok)) :
    evs.all noPrivEv = true := by
  unfold processArgEnd at h
  dsimp only [] at h
  repeat' split at h
  all_goals cases h
  all_goals rfl

/-- The target_data_end loop never touches private arrays. -/
theorem tdeGo_noPriv (dmem : Nat → Nat) (args : List TgtArg) :
    ∀ (L : List Nat) (d : DeviceTy) (hm : Nat → Nat) (d1 : DeviceTy)
      (h1 : Nat → Nat) (evs : List Event) (vis : List Nat) (ok : Bool),
      tdeGo dmem args d hm L = some (d1, h1, evs, vis, ok) →
      evs.all noPrivEv = true := by
  intro L
  induction L with
  | nil =>
    intro d hm d1 h1 evs vis ok h
    simp only [tdeGo, Option.some.injEq, Prod.mk.injEq] at h
    rw [← h.2.2.1]
    rfl
  | cons j rest ih =>
    intro d hm d1 h1 evs vis ok h
    unfold tdeGo at h
    cases hg : args.get? j with
    | none =>
      rw [hg] at h
      dsimp only [] at h
      exact ih d hm d1 h1 evs vis ok h
    | some a =>
      rw [hg] at h
      dsimp only [] at h
      by_cases hlp : (a.ty.isLiteral || a.ty.isPrivate) = true
      · rw [if_pos hlp] at h
        cases hrec : tdeGo dmem args d hm rest with
        | none =>
          rw [hrec] at h
          exact Option.noConfusion h
        | some t =>
          obtain ⟨d2x, h2x, evs2, vis2, ok2⟩ := t
          rw [hrec] at h
          dsimp only [] at h
          simp only [Option.some.injEq, Prod.mk.injEq] at h
          obtain ⟨-, -, hevs, -, -⟩ := h
          rw [← hevs]
          exact ih d hm d2x h2x evs2 vis2 ok2 hrec
      · rw [if_neg hlp] at h
        cases hpe : processArgEnd dmem args d hm j a with
        | none =>
          rw [hpe] at h
          exact Option.noConfusion h
        | some t =>
          obtain ⟨dx, hx, evsx, okx⟩ := t
          rw [hpe] at h
          dsimp only [] at h
          cases okx with
          | false =>
            rw [if_neg (by decide : ¬(false = true))] at h
            simp only [Option.some.injEq, Prod.mk.injEq] at h
            obtain ⟨-, -, hevs, -, -⟩ := h
            rw [← hevs]
            exact processArgEnd_noPriv dmem args d hm j a dx hx evsx false hpe
          | true =>
            rw [if_pos rfl] at h
            cases hrec : tdeGo dmem args dx hx rest with
            | none =>
              rw [hrec] at h
              exact Option.noConfusion h
            | some t2 =>
              obtain ⟨d2x, h2x, evs2, vis2, ok2⟩ := t2
              rw [hrec] at h
              dsimp only [] at h
              simp only [Option.some.injEq, Prod.mk.injEq] at h
              obtain ⟨-, -, hevs, -, -⟩ := h
              rw [← hevs, List.all_append,
                processArgEnd_noPriv dmem args d hm j a dx hx evsx true hpe,
                ih dx hx d2x h2x evs2 vis2 ok2 hrec]
              rfl

/-- The argument-vector step of target(): earlier private arrays persist,
no private array is ever deallocated here, and every private-array
allocation it reports is recorded in the fpArrays list of the new state. -/
theorem processArgTarget_track (args : List TgtArg) (st : TargetLoopSt)
    (i : Nat) (a : TgtArg) (st1 : TargetLoopSt) (evs : List Event)
    (ok : Bool)
    (h : processArgTarget args st i a = some (st1, evs, ok)) :
    (∀ x ∈ st.fpArrays, x ∈ st1.fpArrays) ∧ evs.all noDelEv = true ∧
    (∀ j tp sz, Event.allocPrivate j tp sz ∈ evs → tp ∈ st1.fpArrays) := by
  unfold processArgTarget at h
  dsimp only [] at h
  repeat' split at h
  all_goals cases h
  all_goals refine ⟨fun x hx => ?_, rfl, fun j tp sz hmemb => ?_⟩
  all_goals
    first
    | exact hx
    | exact List.mem_append_left _ hx
    | (simp at hmemb
       obtain ⟨-, rfl, -⟩ := hmemb
       simp)
    | simp at hmemb

/-- The argument-vector loop of target(): fpArrays grows monotonically, no
private array is deallocated, and every reported private-array allocation is
recorded in the final fpArrays list. -/
theorem targetLoopGo_track (args : List TgtArg) :
    ∀ (L : List Nat) (st : TargetLoopSt) (st2 : TargetLoopSt)
      (evs : List Event) (ok : Bool),
      targetLoopGo args st L = some (st2, evs, ok) →
      (∀ x ∈ st.fpArrays, x ∈ st2.fpArrays) ∧ evs.all noDelEv = true ∧
      (∀ j tp sz, Event.allocPrivate j tp sz ∈ evs → tp ∈ st2.fpArrays) := by
  intro L
  induction L with
  | nil =>
    intro st st2 evs ok h
    simp only [targetLoopGo, Option.some.injEq, Prod.mk.injEq] at h
    obtain ⟨hst, hevs, -⟩ := h
    refine ⟨?_, ?_, ?_⟩
    · intro x hx
      rw [← hst]
      exact hx
    · rw [← hevs]
      rfl
    · intro j tp sz hmemb
      rw [← hevs] at hmemb
      simp at hmemb
  | cons i rest ih =>
    intro st st2 evs ok h
    unfold targetLoopGo at h
    cases hg : args.get? i with
    | none =>
      rw [hg] at h
      dsimp only [] at h
      exact ih st st2 evs ok h
    | some a =>
      rw [hg] at h
      dsimp only [] at h
      cases hpa : processArgTarget args st i a with
      | none =>
        rw [hpa] at h
        exact Option.noConfusion h
      | some t =>
        obtain ⟨st1, evs1, ok1⟩ := t
        rw [hpa] at h
        dsimp only [] at h
        obtain ⟨hsub1, hall1, htrack1⟩ :=
          processArgTarget_track args st i a st1 evs1 ok1 hpa
        cases ok1 with
        | false =>
          rw [if_neg (by decide : ¬(false = true))] at h
          simp only [Option.some.injEq, Prod.mk.injEq] at h
          obtain ⟨hst, hevs, -⟩ := h
          refine ⟨?_, ?_, ?_⟩
          · intro x hx
            rw [← hst]
            exact hsub1 x hx
          · rw [← hevs]
            exact hall1
          · intro j tp sz hmemb
            rw [← hevs] at hmemb
            rw [← hst]
            exact htrack1 j tp sz hmemb
        | true =>
          rw [if_pos rfl] at h
          cases hrec : targetLoopGo args st1 rest with
          | none =>
            rw [hrec] at h
            exact Option.noConfusion h
          | some t2 =>
            obtain ⟨st2x, evs2, ok2⟩ := t2
            rw [hrec] at h
            dsimp only [] at h
            simp only [Option.some.injEq, Prod.mk.injEq] at h
            obtain ⟨hst, hevs, -⟩ := h
            obtain ⟨hsub2, hall2, htrack2⟩ := ih st1 st2x evs2 ok2 hrec
            refine ⟨?_, ?_, ?_⟩
            · intro x hx
              rw [← hst]
              exact hsub2 x (hsub1 x hx)
            · rw [← hevs, List.all_append, hall1, hall2]
              rfl
            · intro j tp sz hmemb
              rw [← hevs] at hmemb
              rw [List.mem_append] at hmemb
              rw [← hst]
              rcases hmemb with hmemb | hmemb
              · exact hsub2 tp (htrack1 j tp sz hmemb)
              · exact htrack2 j tp sz hmemb

/-- C9: refuted as stated.  A target() call whose kernel launch fails
returns OFFLOAD_FAIL at omptarget.cpp line 1237-1240, before the loop at
line 1244-1254 that frees the (first-)private arrays: on this run one
private array is allocated (device address 42) and the failing launch path
never frees it. -/
theorem target_launch_fail_leaks :
    targetRun zmem zmem (mkDev [] [42]) [c9Arg] false false =
      some (mkDev [] [], zmem,
        [Event.allocPrivate 0 42 8, Event.launchEv false], false) ∧
    (∀ tp, Event.deletePrivate tp ∉
      [Event.allocPrivate 0 42 8, Event.launchEv false]) :=
  ⟨rfl, by intro tp; simp⟩

/-- C9: corrected.  target() frees the per-launch private arrays only on
the paths that survive the kernel launch: a run that returns with success
status pairs every private-array allocation with a deallocation of the same
device address, while a run whose launch fails performs no private-array
deallocation at all. -/
theorem target_transient_free
    (dmem hmem : Nat → Nat) (d : DeviceTy) (args : List TgtArg)
    (launchOk isTeam : Bool) (d2 : DeviceTy) (h2 : Nat → Nat)
    (evs : List Event) (ok : Bool)
    (hrun : targetRun dmem hmem d args launchOk isTeam =
      some (d2, h2, evs, ok)) :
    (launchOk = true → ok = true →
      ∀ j tp sz, Event.allocPrivate j tp sz ∈ evs →
        Event.deletePrivate tp ∈ evs) ∧
    (launchOk = false → ∀ tp, Event.deletePrivate tp ∉ evs) := by
  unfold targetRun at hrun
  by_cases hgate : (d.IsBulkEnabled || d.IsATEnabled ||
      decide (d.ATMode ≠ 0)) = true
  · rw [if_pos hgate] at hrun
    cases hrun
  rw [if_neg hgate] at hrun
  have hbulk : d.IsBulkEnabled = false := by
    simp only [Bool.or_eq_true, not_or] at hgate
    exact Bool.eq_false_iff.mpr hgate.1.1
  cases hB : target_data_begin hmem d args with
  | none =>
    rw [hB] at hrun
    exact Option.noConfusion hrun
  | some tB =>
    obtain ⟨d1, evB, okB⟩ := tB
    rw [hB] at hrun
    dsimp only [] at hrun
    have hB' : tdbGo hmem args d (List.range args.length) =
        some (d1, evB, okB) := by
      have hB2 := hB
      unfold target_data_begin at hB2
      rw [hbulk] at hB2
      simpa using hB2
    have hBall := tdbGo_noPriv hmem args (List.range args.length) d d1 evB
      okB hB'
    cases okB with
    | false =>
      rw [if_pos (by decide : (!false) = true)] at hrun
      simp only [Option.some.injEq, Prod.mk.injEq] at hrun
      obtain ⟨-, -, hevs, hok⟩ := hrun
      refine ⟨fun _ hok2 => absurd (hok.trans hok2) (by decide),
        fun _ tp htp => ?_⟩
      rw [← hevs] at htp
      have := List.all_eq_true.mp hBall _ htp
      simp [noPrivEv] at this
    | true =>
      rw [if_neg (by decide : ¬((!true) = true))] at hrun
      cases hL : targetLoopGo args (initTargetLoopSt d1 args.length)
          (List.range args.length) with
      | none =>
        rw [hL] at hrun
        exact Option.noConfusion hrun
      | some tL =>
        obtain ⟨st, evL, ok2⟩ := tL
        rw [hL] at hrun
        dsimp only [] at hrun
        obtain ⟨-, hLall, hLtrack⟩ := targetLoopGo_track args
          (List.range args.length) (initTargetLoopSt d1 args.length) st evL
          ok2 hL
        cases ok2 with
        | false =>
          rw [if_pos (by decide : (!false) = true)] at hrun
          simp only [Option.some.injEq, Prod.mk.injEq] at hrun
          obtain ⟨-, -, hevs, hok⟩ := hrun
          refine ⟨fun _ hok2 => absurd (hok.trans hok2) (by decide),
            fun _ tp htp => ?_⟩
          rw [← hevs] at htp
          rw [List.mem_append] at htp
          rcases htp with htp | htp
          · have := List.all_eq_true.mp hBall _ htp
            simp [noPrivEv] at this
          · have := List.all_eq_true.mp hLall _ htp
            simp [noDelEv] at this
        | true =>
          rw [if_neg (by decide : ¬((!true) = true))] at hrun
          cases launchOk with
          | false =>
            rw [if_pos (by decide : (!false) = true)] at hrun
            simp only [Option.some.injEq, Prod.mk.injEq] at hrun
            obtain ⟨-, -, hevs, hok⟩ := hrun
            refine ⟨fun hl _ => absurd hl (by decide), fun _ tp htp => ?_⟩
            rw [← hevs] at htp
            simp only [List.mem_append] at htp
            rcases htp with (htp | htp) | htp
            · have := List.all_eq_true.mp hBall _ htp
              simp [noPrivEv] at this
            · have := List.all_eq_true.mp hLall _ htp
              simp [noDelEv] at this
            · simp at htp
          | true =>
            rw [if_neg (by decide : ¬((!true) = true))] at hrun
            cases hE : target_data_end dmem st.dev hmem args with
            | none =>
              rw [hE] at hrun
              exact Option.noConfusion hrun
            | some tE =>
              obtain ⟨d2x, h2x, evE, vis, ok3⟩ := tE
              rw [hE] at hrun
              dsimp only [] at hrun
              simp only [Option.some.injEq, Prod.mk.injEq] at hrun
              obtain ⟨-, -, hevs, -⟩ := hrun
              have hEall := tdeGo_noPriv dmem args
                (List.range args.length).reverse st.dev hmem d2x h2x evE vis
                ok3 hE
              refine ⟨fun _ _ j tp sz hmemb => ?_,
                fun hl => absurd hl (by decide)⟩
              rw [← hevs] at hmemb
              simp only [List.mem_append] at hmemb
              rcases hmemb with (((hmemb | hmemb) | hmemb) | hmemb) | hmemb
              · exact absurd (List.all_eq_true.mp hBall _ hmemb)
                  (by simp [noPrivEv])
              · have htp := hLtrack j tp sz hmemb
                rw [← hevs]
                simp only [List.mem_append]
                exact Or.inl (Or.inr (List.mem_map_of_mem _ htp))
              · simp at hmemb
              · rw [List.mem_map] at hmemb
                obtain ⟨x, -, heq⟩ := hmemb
                cases heq
              · exact absurd (List.all_eq_true.mp hEall _ hmemb)
                  (by simp [noPrivEv])

/-- Witness for target_transient_free: a successful launch over one
first-private argument allocates device address 42 and frees it after the
launch. -/
theorem target_transient_free_witness :
    targetRun zmem zmem (mkDev [] [42]) [c9Arg] true false =
      some (mkDev [] [], zmem,
        [Event.allocPrivate 0 42 8, Event.launchEv false,
          Event.deletePrivate 42], true) ∧
    ((true = true → true = true →
      ∀ j tp sz, Event.allocPrivate j tp sz ∈
          [Event.allocPrivate 0 42 8, Event.launchEv false,
            Event.deletePrivate 42] →
        Event.deletePrivate tp ∈
          [Event.allocPrivate 0 42 8, Event.launchEv false,
            Event.deletePrivate 42]) ∧
    (true = false →
      ∀ tp, Event.deletePrivate tp ∉
        [Event.allocPrivate 0 42 8, Event.launchEv false,
          Event.deletePrivate 42])) :=
  ⟨rfl, target_transient_free zmem zmem (mkDev [] [42]) [c9Arg] true false
    (mkDev [] []) zmem
    [Event.allocPrivate 0 42 8, Event.launchEv false,
      Event.deletePrivate 42] true rfl⟩

/-- C10: in the argument-vector loop of target(), a lambda-captured
argument (PTR_AND_OBJ, LITERAL and IMPLICIT set, not a TARGET_PARAM) whose
captured host pointer has no device mapping (getTgtPtrBegin answers null)
is silently skipped: the step emits no pointer patch and reports success,
so the launch still proceeds. -/
theorem lambda_missing_mapping_skipped
    (args : List TgtArg) (st : TargetLoopSt) (i : Nat) (a : TgtArg)
    (idx tgtIdx parentTgt : Nat) (parentOff : Int) (pa : TgtArg)
    (hparam : a.ty.isTargetParam = false)
    (hlam : isLambdaMapping a.ty = true)
    (hmo : a.ty.memberOf = some idx)
    (hpos : st.positions.get? idx = some (some tgtIdx))
    (hta : st.tgtArgs.get? tgtIdx = some parentTgt)
    (hto : st.tgtOffsets.get? tgtIdx = some parentOff)
    (hpa : args.get? idx = some pa)
    (hnull : (getTgtPtrBegin st.dev a.hbegin a.hsize false).2.1 = 0) :
    processArgTarget args st i a =
      some ({ st with dev := (getTgtPtrBegin st.dev a.hbegin a.hsize
        false).1 }, [], true) := by
  unfold processArgTarget
  rw [hparam]
  rw [if_pos (by decide : (!false) = true)]
  rw [hlam, if_pos rfl, hmo]
  dsimp only []
  rw [hpos]
  dsimp only []
  rw [hta, hto, hpa]
  dsimp only []
  rw [hnull, if_pos rfl]

/-- Witness for lambda_missing_mapping_skipped: a lambda capture at host
address 9000 with an empty interval map is skipped and the step succeeds. -/
theorem lambda_missing_mapping_skipped_witness :
    c10Arg.ty.isTargetParam = false ∧
    isLambdaMapping c10Arg.ty = true ∧
    c10Arg.ty.memberOf = some 0 ∧
    c10St.positions.get? 0 = some (some 0) ∧
    c10St.tgtArgs.get? 0 = some 7777 ∧
    c10St.tgtOffsets.get? 0 = some 0 ∧
    ([c10Parent, c10Arg] : List TgtArg).get? 0 = some c10Parent ∧
    (getTgtPtrBegin c10St.dev c10Arg.hbegin c10Arg.hsize false).2.1 = 0 ∧
    processArgTarget [c10Parent, c10Arg] c10St 1 c10Arg =
      some ({ c10St with dev := (getTgtPtrBegin c10St.dev c10Arg.hbegin
        c10Arg.hsize false).1 }, [], true) :=
  ⟨rfl, rfl, rfl, rfl, rfl, rfl, rfl, rfl,
    lambda_missing_mapping_skipped [c10Parent, c10Arg] c10St 1 c10Arg
      0 0 7777 0 c10Parent rfl rfl rfl rfl rfl rfl rfl rfl⟩

end OmpTgt
